import Mathlib

/-!
Verification of the flareone framework core (DI container, radix router,
execution pipeline) against its natural-language specification.

Each definition is a shallow embedding of a function of the repository:

* `Flareone.Pipeline` embeds the guard stage and the interceptor chain of
  `FlareoneApplication.executePipeline` (packages/core/src/application/factory.ts).
* `Flareone.Exc` embeds the HTTP exception shapes, `toHttpException`,
  `HttpException.toResponse`, `errorToResponse` and
  `FlareoneApplication.handleException`.
* `Flareone.Router` embeds the radix-tree router (packages/core/src/router/
  radix-router.ts): path normalization, segment parsing, insertion with
  node splitting, and depth-first matching with parameter backtracking.
* `Flareone.DI` embeds the container resolution algorithm
  (packages/core/src/di/container.ts): provider records, scope dispatch,
  the resolution stack, caching, and the sync/async entry points.

Conventions of the embedding: JavaScript object instances are allocation
identifiers (`PureVal.obj id`) drawn from a counter threaded through the
state, `undefined` is `PureVal.undef`, promises are values flagged
`isAsync := true` (the `instanceof Promise` test reads the flag), JS `Map`s
and plain objects are association lists with JS `Map.set` / object-spread
update semantics, and the mutable recursion of the source is explicit
state passing with a fuel parameter for the (potentially non-terminating)
recursion of the container.
-/

namespace Flareone

/-! ## Pipeline: interceptor chain and guard stage
Embeds `FlareoneApplication.executePipeline` (factory.ts lines 211-247).
Interceptors and guards are test doubles identified by a numeric id, the
observable behaviour being the order of calls, exactly as the spec's
"recording interceptor" property states it. -/

/-- Observable event of one request: an interceptor's statements before its
nested call, the handler execution, or an interceptor's statements after its
nested call returns. -/
inductive Event where
  | before (i : Nat)
  | handler
  | after (i : Nat)
deriving DecidableEq, Repr

/-- Embeds the closure `buildChain` of `executePipeline`: `chainIndex` starts
at `interceptors.length - 1` and the closure invokes
`interceptors[chainIndex--]`, handing it a `FlareoneCallHandler` that re-runs
`buildChain`; at `chainIndex < 0` it runs the handler. `k` stands for
`chainIndex + 1` (the number of interceptors not yet invoked). Each recording
interceptor logs `before`, runs the rest of the chain via
`callHandler.handle()`, then logs `after`. -/
def buildChainEvents (interceptors : List Nat) : Nat → List Event
  | 0 => [Event.handler]
  | k + 1 =>
    Event.before (interceptors.getD k 0) ::
      (buildChainEvents interceptors k ++ [Event.after (interceptors.getD k 0)])

/-- Embeds the interceptor stage of `executePipeline`: the chain is built over
`[...this.globalInterceptors, ...handler.interceptors]` and entered once with
`chainIndex = interceptors.length - 1`. -/
def interceptorStageEvents (globalInterceptors routeInterceptors : List Nat) : List Event :=
  let interceptors := globalInterceptors ++ routeInterceptors
  buildChainEvents interceptors interceptors.length

/-- Embeds the HTTP error value `new HttpException('Forbidden', 403)` thrown
by the guard stage, and more generally an `HttpException` with a string
response: the carried message and status. -/
structure GuardError where
  message : String
  status : Nat
deriving DecidableEq, Repr

/-- Embeds the guard loop of `executePipeline` (factory.ts lines 220-225): a
guard is a test double `(id, canActivate result)`; the loop awaits each
guard's `canActivate` in order and throws `HttpException('Forbidden', 403)`
at the first falsy result. Returns the ids of the guards whose `canActivate`
ran, and the thrown error if one was thrown. -/
def runGuards : List (Nat × Bool) → List Nat × Option GuardError
  | [] => ([], none)
  | (i, canActivate) :: rest =>
    if canActivate then
      let r := runGuards rest
      (i :: r.1, r.2)
    else
      ([i], some { message := "Forbidden", status := 403 })

/-- Embeds the guard stage of `executePipeline`: the list is
`[...this.globalGuards, ...handler.guards]`, global guards first. -/
def guardStage (globalGuards routeGuards : List (Nat × Bool)) : List Nat × Option GuardError :=
  runGuards (globalGuards ++ routeGuards)

end Flareone

namespace Flareone.Exc

/-! ## HTTP exceptions and the top-level exception handler
Embeds `http-exceptions.ts` (`HttpException`, `toHttpException`,
`errorToResponse`) and `FlareoneApplication.handleException` (factory.ts
lines 393-416). A JSON object is an association list with JavaScript
object-literal / spread update semantics; JSON values beyond strings and
numbers are carried opaquely. -/

/-- JSON value of a response body field: strings, numbers, and any other
JSON value carried opaquely by a tag. -/
inductive JVal where
  | str (s : String)
  | num (n : Nat)
  | raw (tag : Nat)
deriving DecidableEq, Repr

/-- JSON object in key order. -/
abbrev JObj := List (String × JVal)

/-- JavaScript object-literal key assignment: overwrite the key in place if
present, append otherwise. -/
def objSet (o : JObj) (key : String) (v : JVal) : JObj :=
  if o.any (fun p => p.1 == key) then
    o.map (fun p => if p.1 == key then (key, v) else p)
  else
    o ++ [(key, v)]

/-- JavaScript object spread `\x7b ...base, ...extra \x7d`: later keys
overwrite earlier ones. -/
def objSpread (base : JObj) (extra : JObj) : JObj :=
  extra.foldl (fun acc p => objSet acc p.1 p.2) base

/-- Lookup of a key in a JSON object. -/
def objGet (o : JObj) (key : String) : Option JVal :=
  (o.find? (fun p => p.1 == key)).map (fun p => p.2)

/-- Embeds `HttpException`: the `response` (a string or an object), the
`status`, and the `stack` captured at construction (`none` models an
absent or empty — falsy — stack). -/
structure HttpExceptionM where
  response : String ⊕ JObj
  status : Nat
  stack : Option String
deriving DecidableEq, Repr

/-- Embeds `HttpException.toResponse` (http-exceptions.ts lines 105-116):
a string response becomes `\x7b statusCode, message \x7d`; an object
response is spread after `statusCode`. Returns (status, JSON body). -/
def HttpExceptionM.toResponse (e : HttpExceptionM) : Nat × JObj :=
  match e.response with
  | Sum.inl s => (e.status, [("statusCode", JVal.num e.status), ("message", JVal.str s)])
  | Sum.inr o => (e.status, objSpread [("statusCode", JVal.num e.status)] o)

/-- Value thrown somewhere in the request pipeline, as the top-level handler
receives it: an `HttpException`, a plain JS `Error` (with its `message` and
its own stack), or any other thrown value rendered by `String(error)`. -/
inductive ThrownError where
  | http (e : HttpExceptionM)
  | jsError (message : String) (stack : Option String)
  | other (rendered : String)
deriving DecidableEq, Repr

/-- Stack trace captured by `Error.captureStackTrace` when
`toHttpException` wraps a non-`HttpException` error in a fresh
`InternalServerErrorException`; the embedding carries it opaquely. -/
def capturedStack : String := "Error: captured stack trace"

/-- Embeds `toHttpException` (http-exceptions.ts lines 330-340): an
`HttpException` passes through; an `Error` becomes
`InternalServerErrorException(error.message)`; anything else becomes
`InternalServerErrorException(String(error))`. The fresh exception captures
its own stack at construction. -/
def toHttpException : ThrownError → HttpExceptionM
  | ThrownError.http e => e
  | ThrownError.jsError message _ =>
    { response := Sum.inl message, status := 500, stack := some capturedStack }
  | ThrownError.other rendered =>
    { response := Sum.inl rendered, status := 500, stack := some capturedStack }

/-- Embeds `errorToResponse` (http-exceptions.ts lines 345-360): with
`includeStack` set and a truthy stack, the body is rebuilt with a trailing
`stack` field; otherwise `toResponse` is used unchanged. -/
def errorToResponse (error : ThrownError) (includeStack : Bool) : Nat × JObj :=
  let exception := toHttpException error
  match includeStack, exception.stack with
  | true, some st =>
    let body :=
      match exception.response with
      | Sum.inl s =>
        [("statusCode", JVal.num exception.status), ("message", JVal.str s),
         ("stack", JVal.str st)]
      | Sum.inr o =>
        objSpread (objSpread [("statusCode", JVal.num exception.status)] o)
          [("stack", JVal.str st)]
    (exception.status, body)
  | _, _ => exception.toResponse

/-- Embeds `FlareoneApplication.handleException` (factory.ts lines 393-416):
each global exception filter is offered the error in registration order, a
filter that throws is skipped, the first returned response wins; with no
filter left, `isDev` is `env.ENVIRONMENT === 'development'` and the error is
normalized by `errorToResponse`. A filter is modelled as a function to
`Option` (`none` models a filter whose `catch` threw). -/
def handleException (filters : List (ThrownError → Option (Nat × JObj)))
    (error : ThrownError) (envEnvironment : Option String) : Nat × JObj :=
  match filters.findSome? (fun f => f error) with
  | some resp => resp
  | none =>
    let isDev := envEnvironment == some "development"
    errorToResponse error isDev

end Flareone.Exc

namespace Flareone

/-! ## Generic association-list helpers
JavaScript `Map.set`/`Map.get` and plain-object assignment/lookup, used by
the router and the container embeddings. `mapSet` updates a present key in
place and appends an absent one, as `Map.set` does. -/

/-- JS `Map.get` / object property read. -/
def mapGet {α β : Type} [BEq α] (m : List (α × β)) (k : α) : Option β :=
  (m.find? (fun p => p.1 == k)).map (fun p => p.2)

/-- JS `Map.set` / object property assignment. -/
def mapSet {α β : Type} [BEq α] (m : List (α × β)) (k : α) (v : β) : List (α × β) :=
  if m.any (fun p => p.1 == k) then m.map (fun p => if p.1 == k then (k, v) else p)
  else m ++ [(k, v)]

/-- JS `delete` of an object property / `Map.delete`. -/
def mapDelete {α β : Type} [BEq α] (m : List (α × β)) (k : α) : List (α × β) :=
  m.filter (fun p => !(p.1 == k))

end Flareone

namespace Flareone.Router

/-! ## Radix router
Embeds `Router` of packages/core/src/router/radix-router.ts: `normalizePath`,
`splitPath`, `parseSegment`, `insertSegment` / `splitOrExtendNode` (as the
pure insertion `insertPath` / `splitOrExtendInsert`, which rebuild the
mutated ancestors), `matchPath` (with the parameter map threaded as explicit
state, mirroring the in-place mutation and restore of the source), and
`getHandler`. A path or segment is its list of characters; a route handler
is identified by a number; a compiled regular expression is an abstract
predicate on segments supplied by the `compile` hook standing for
`new RegExp` + `test` (the regex engine is external to the core). The
`routes` array (introspection only), the overwrite warning and the
`debug`/`printNode` helpers have no observable effect on matching and are
not modelled. -/

/-- Path segment as its character list. -/
abbrev Seg := List Char

/-- Node type of the radix tree (`NodeType` of the source). -/
inductive NodeType where
  | static
  | param
  | wildcard
  | regex
deriving DecidableEq, Repr

/-- HTTP method (`HttpMethod` of constants.ts). -/
inductive Method where
  | GET
  | POST
  | PUT
  | DELETE
  | PATCH
  | OPTIONS
  | HEAD
  | ALL
deriving DecidableEq, Repr

/-- Embeds `RadixNode`: node type, segment text (or parameter name), the
optional compiled pattern, the static children keyed by first character, at
most one parameter child, at most one wildcard child, the method-to-handler
map, and the (unused by matching) `priority`. -/
inductive RadixNode where
  | node (type : NodeType) (segment : Seg) (pattern : Option (Seg → Bool))
      (children : List (Char × RadixNode))
      (paramChild : Option RadixNode)
      (wildcardChild : Option RadixNode)
      (handlers : List (Method × Nat))
      (priority : Nat)

/-- Node type of a node. -/
def RadixNode.type : RadixNode → NodeType
  | .node t _ _ _ _ _ _ _ => t

/-- Segment text of a node. -/
def RadixNode.segment : RadixNode → Seg
  | .node _ s _ _ _ _ _ _ => s

/-- Compiled pattern of a regex node. -/
def RadixNode.pattern : RadixNode → Option (Seg → Bool)
  | .node _ _ p _ _ _ _ _ => p

/-- Static children of a node, keyed by first character. -/
def RadixNode.children : RadixNode → List (Char × RadixNode)
  | .node _ _ _ ch _ _ _ _ => ch

/-- Parameter child of a node. -/
def RadixNode.paramChild : RadixNode → Option RadixNode
  | .node _ _ _ _ pc _ _ _ => pc

/-- Wildcard child of a node. -/
def RadixNode.wildcardChild : RadixNode → Option RadixNode
  | .node _ _ _ _ _ wc _ _ => wc

/-- Method-to-handler map of a node. -/
def RadixNode.handlers : RadixNode → List (Method × Nat)
  | .node _ _ _ _ _ _ hs _ => hs

/-- Priority of a node (set at creation, never read by matching). -/
def RadixNode.priority : RadixNode → Nat
  | .node _ _ _ _ _ _ _ pr => pr

/-- Mutation `parent.children.set(c, child)` of the source, as a rebuild. -/
def RadixNode.withChild (n : RadixNode) (c : Char) (child : RadixNode) : RadixNode :=
  match n with
  | .node t s p ch pc wc hs pr => .node t s p (Flareone.mapSet ch c child) pc wc hs pr

/-- Mutation `node.paramChild = pc` of the source, as a rebuild. -/
def RadixNode.withParam (n : RadixNode) (pc : RadixNode) : RadixNode :=
  match n with
  | .node t s p ch _ wc hs pr => .node t s p ch (some pc) wc hs pr

/-- Mutation `node.wildcardChild = wc` of the source, as a rebuild. -/
def RadixNode.withWildcard (n : RadixNode) (wc : RadixNode) : RadixNode :=
  match n with
  | .node t s p ch pc _ hs pr => .node t s p ch pc (some wc) hs pr

/-- Mutation `node.segment = s2` of the source (node shortening during a
split), as a rebuild. -/
def RadixNode.withSegment (n : RadixNode) (s2 : Seg) : RadixNode :=
  match n with
  | .node t _ p ch pc wc hs pr => .node t s2 p ch pc wc hs pr

/-- Mutation `node.handlers.set(m, h)` of the source, as a rebuild. -/
def RadixNode.withHandler (n : RadixNode) (m : Method) (h : Nat) : RadixNode :=
  match n with
  | .node t s p ch pc wc hs pr => .node t s p ch pc wc (Flareone.mapSet hs m h) pr

/-- First character of a segment, the key of the static-children map
(`segment[0] || ''` in the source; every inserted or matched segment is
non-empty because `splitPath` drops empty segments and split suffixes are
non-empty, so the fallback key is never a real key). -/
def firstCharOf : Seg → Char
  | [] => Char.ofNat 0
  | c :: _ => c

/-- Run of `path.replace(/\/+/g, '/')` with the preceding-slash state
explicit: a slash right after a slash is dropped, everything else is kept. -/
def collapseAux : Bool → List Char → List Char
  | _, [] => []
  | prevSlash, c :: rest =>
    if c == '/' then
      if prevSlash then collapseAux true rest
      else '/' :: collapseAux true rest
    else c :: collapseAux false rest

/-- Embeds `path.replace(/\/+/g, '/')`: collapse every run of slashes to a
single slash. -/
def collapseSlashes (l : List Char) : List Char := collapseAux false l

/-- Embeds `Router.normalizePath`: collapse repeated slashes, strip one
leading and one trailing slash. -/
def normalizePath (path : List Char) : List Char :=
  let collapsed := collapseSlashes path
  let noLead := if collapsed.head? == some '/' then collapsed.tail else collapsed
  if noLead.getLast? == some '/' then noLead.dropLast else noLead

/-- Splitting on the slash character, the list analogue of
`String.prototype.split('/')` (one possibly-empty piece per gap). -/
def splitOnSlash : List Char → List Seg
  | [] => [[]]
  | c :: rest =>
    let tailSplit := splitOnSlash rest
    if c == '/' then [] :: tailSplit
    else
      match tailSplit with
      | [] => [[c]]
      | s :: ss => (c :: s) :: ss

/-- Embeds `Router.splitPath`: empty path gives no segments, otherwise split
on slashes and drop empty pieces (`filter(Boolean)`). -/
def splitPath (path : List Char) : List Seg :=
  if path.isEmpty then []
  else (splitOnSlash path).filter (fun s => !s.isEmpty)

/-- Parsed classification of one registered segment, the result shape of
`Router.parseSegment`. -/
structure ParsedSeg where
  type : NodeType
  name : Seg
  pattern : Option (Seg → Bool)

/-- Embeds `Router.parseSegment`. A leading `*` gives a wildcard named by the
remainder (default name `wildcard`). A leading `:` is matched against
`^:([^(]+)(?:\((.+)\))?$`: the name is everything before the first `(`; a
parenthesized non-empty remainder that closes the segment compiles to a
pattern (the `compile` hook stands for building the anchored `RegExp`); a
segment the regex rejects falls through to static, as in the source.
Everything else is a static segment. -/
def parseSegment (compile : Seg → Seg → Bool) (segment : Seg) : ParsedSeg :=
  match segment with
  | '*' :: rest =>
    { type := NodeType.wildcard
      name := if rest.isEmpty then "wildcard".toList else rest
      pattern := none }
  | ':' :: rest =>
    let name := rest.takeWhile (fun c => !(c == '('))
    let tail := rest.dropWhile (fun c => !(c == '('))
    if name.isEmpty then
      { type := NodeType.static, name := segment, pattern := none }
    else if tail.isEmpty then
      { type := NodeType.param, name := name, pattern := none }
    else if decide (3 ≤ tail.length) && tail.getLast? == some ')' then
      { type := NodeType.regex, name := name
        pattern := some (compile ((tail.drop 1).dropLast)) }
    else
      { type := NodeType.static, name := segment, pattern := none }
  | _ => { type := NodeType.static, name := segment, pattern := none }

/-- Embeds `Router.createNode`, including the `priority` formula. -/
def createNode (t : NodeType) (segment : Seg) (pattern : Option (Seg → Bool)) : RadixNode :=
  RadixNode.node t segment pattern [] none none []
    (match t with
     | NodeType.static => 3
     | NodeType.param => 2
     | NodeType.regex => 1
     | NodeType.wildcard => 0)

/-- Length of the longest common prefix of two segments, the `commonLength`
loop of `Router.splitOrExtendNode`. -/
def commonPrefixLength : Seg → Seg → Nat
  | a :: as, b :: bs => if a == b then commonPrefixLength as bs + 1 else 0
  | _, _ => 0

/-- Embeds the insertion loop of `Router.register` together with
`Router.insertSegment` and `Router.splitOrExtendNode`: each segment of the
normalized path descends into (or creates) the matching child and the
handler is attached to the final node (`node.handlers.set(method,
handler)`). The source mutates nodes in place and returns the child to
continue from; the pure embedding rebuilds the ancestors around the
recursive insertion of the remaining segments into that child. The three
split cases of `splitOrExtendNode` are the inner conditional of the static
branch; as in the source, when the existing segment is a proper prefix of
the new one and a child already sits at the remainder's first character,
that child is descended into without any further splitting. When a
parameter child already exists it is reused as-is (the source only warns on
a name mismatch and never updates the pattern). -/
def insertPath (compile : Seg → Seg → Bool) :
    RadixNode → List Seg → Method → Nat → RadixNode
  | node, [], m, h => node.withHandler m h
  | node, seg :: rest, m, h =>
    let parsed := parseSegment compile seg
    match parsed.type with
    | NodeType.static =>
      let c := firstCharOf seg
      match Flareone.mapGet node.children c with
      | none =>
        node.withChild c (insertPath compile (createNode NodeType.static seg none) rest m h)
      | some child =>
        if child.segment == seg then
          node.withChild c (insertPath compile child rest m h)
        else
          let existingSegment := child.segment
          let commonLength := commonPrefixLength existingSegment seg
          if commonLength == existingSegment.length && commonLength == seg.length then
            node.withChild c (insertPath compile child rest m h)
          else if commonLength == seg.length then
            let shortened := child.withSegment (existingSegment.drop commonLength)
            let commonNode := (createNode NodeType.static seg none).withChild
              (firstCharOf shortened.segment) shortened
            node.withChild c (insertPath compile commonNode rest m h)
          else if commonLength == existingSegment.length then
            let remainingSegment := seg.drop commonLength
            let rc := firstCharOf remainingSegment
            match Flareone.mapGet child.children rc with
            | none =>
              node.withChild c (child.withChild rc
                (insertPath compile (createNode NodeType.static remainingSegment none) rest m h))
            | some grandchild =>
              node.withChild c (child.withChild rc (insertPath compile grandchild rest m h))
          else
            let commonPart := existingSegment.take commonLength
            let shortened := child.withSegment (existingSegment.drop commonLength)
            let newChild := createNode NodeType.static (seg.drop commonLength) none
            let commonNode := ((createNode NodeType.static commonPart none).withChild
              (firstCharOf shortened.segment) shortened).withChild
              (firstCharOf newChild.segment) (insertPath compile newChild rest m h)
            node.withChild c commonNode
    | NodeType.param | NodeType.regex =>
      match node.paramChild with
      | none =>
        node.withParam
          (insertPath compile (createNode parsed.type parsed.name parsed.pattern) rest m h)
      | some pc => node.withParam (insertPath compile pc rest m h)
    | NodeType.wildcard =>
      match node.wildcardChild with
      | none =>
        node.withWildcard
          (insertPath compile (createNode NodeType.wildcard parsed.name none) rest m h)
      | some wc => node.withWildcard (insertPath compile wc rest m h)

/-- Root node of a fresh `Router` (`createNode('static', '')`). -/
def emptyRouter : RadixNode := createNode NodeType.static [] none

/-- Embeds `Router.register`: normalize the path, split it into segments,
insert them from the root, attach the handler at the final node. The
`routes` introspection array and the overwrite warning are not modelled. -/
def registerRoute (compile : Seg → Seg → Bool) (root : RadixNode) (m : Method)
    (path : List Char) (h : Nat) : RadixNode :=
  insertPath compile root (splitPath (normalizePath path)) m h

/-- Embeds `Router.getHandler`: the handler for the method, else the `ALL`
fallback. -/
def getHandlerOf (n : RadixNode) (m : Method) : Option Nat :=
  match Flareone.mapGet n.handlers m with
  | some handler => some handler
  | none => Flareone.mapGet n.handlers Method.ALL

/-- Parameter map of a match, `Record<string, string>` in the source. -/
abbrev Params := List (Seg × Seg)

/-- Embeds `segments.slice(index).join('/')` of the wildcard capture. -/
def joinSlash (segs : List Seg) : Seg :=
  List.intercalate ['/'] segs

/-- Embeds `Router.matchPath` with the in-place mutation of `params`
threaded as state: every branch yields the handler (or `none`) together
with the parameter map as the mutable object stands after that branch, so
a later branch starts from the map a failed earlier branch left behind.
Branch order is that of the source: (1) the static child keyed by the
first character, matching when its segment equals the path segment or is a
proper prefix of it whose own child consumes the exact remainder (the
one-level intermediate-node case); (2) the regex-constrained parameter
child, binding the segment with the prior value saved and restored (or the
binding deleted) when the deeper match fails; (3) the plain parameter
child, with the same save/restore; (4) the wildcard child, which binds the
joined remaining segments and returns that node's handler lookup directly
— with no removal of the binding when the lookup finds nothing. -/
def matchPath : RadixNode → List Seg → Params → Method → Option Nat × Params
  | node, [], params, m => (getHandlerOf node m, params)
  | node, seg :: rest, params, m =>
    let staticStep : Option Nat × Params :=
      match Flareone.mapGet node.children (firstCharOf seg) with
      | none => (none, params)
      | some staticChild =>
        if staticChild.segment.isPrefixOf seg then
          if staticChild.segment == seg then
            matchPath staticChild rest params m
          else
            let remaining := seg.drop staticChild.segment.length
            match Flareone.mapGet staticChild.children (firstCharOf remaining) with
            | none => (none, params)
            | some nextChild =>
              if remaining == nextChild.segment then
                matchPath nextChild rest params m
              else (none, params)
        else (none, params)
    match staticStep with
    | (some h, p) => (some h, p)
    | (none, p1) =>
      let regexStep : Option Nat × Params :=
        match node.paramChild with
        | none => (none, p1)
        | some pc =>
          match pc.pattern with
          | none => (none, p1)
          | some pat =>
            if pat seg then
              let savedValue := Flareone.mapGet p1 pc.segment
              match matchPath pc rest (Flareone.mapSet p1 pc.segment seg) m with
              | (some h, p) => (some h, p)
              | (none, p) =>
                (none,
                  match savedValue with
                  | some v => Flareone.mapSet p pc.segment v
                  | none => Flareone.mapDelete p pc.segment)
            else (none, p1)
      match regexStep with
      | (some h, p) => (some h, p)
      | (none, p2) =>
        let plainStep : Option Nat × Params :=
          match node.paramChild with
          | none => (none, p2)
          | some pc =>
            match pc.pattern with
            | some _ => (none, p2)
            | none =>
              let savedValue := Flareone.mapGet p2 pc.segment
              match matchPath pc rest (Flareone.mapSet p2 pc.segment seg) m with
              | (some h, p) => (some h, p)
              | (none, p) =>
                (none,
                  match savedValue with
                  | some v => Flareone.mapSet p pc.segment v
                  | none => Flareone.mapDelete p pc.segment)
        match plainStep with
        | (some h, p) => (some h, p)
        | (none, p3) =>
          match node.wildcardChild with
          | some wc =>
            let remainingPath := joinSlash (seg :: rest)
            (getHandlerOf wc m, Flareone.mapSet p3 wc.segment remainingPath)
          | none => (none, p3)

/-- Embeds `Router.match`: normalize and split the path, run `matchPath`
from the root with a fresh parameter map, and return the handler with the
map on success. -/
def matchRoute (root : RadixNode) (m : Method) (path : List Char) :
    Option (Nat × Params) :=
  let segments := splitPath (normalizePath path)
  match matchPath root segments [] m with
  | (some h, params) => some (h, params)
  | (none, _) => none

end Flareone.Router

namespace Flareone.DI

/-! ## Dependency-injection container
Embeds `Container` of packages/core/src/di/container.ts. A token is its
human-readable name (a string; `getTokenName` of the source maps every real
token shape to such a name, and token identity maps to string equality).
An object instance is an allocation identifier drawn from the `nextId`
counter (two `new` results are reference-identical exactly when their
identifiers are equal); `undefined` is `PureVal.undef`; a promise is a value
flagged `isAsync` (the `instanceof Promise` checks of the source read the
flag, and awaiting unwraps it). A factory is one of the shapes
`createProviderRecord` builds: class construction via `instantiateClass`
with the discovered constructor dependencies, a `useFactory` function with
its `inject` list and a result description, a `useValue`, or a `useExisting`
forward. Containers share the registration map of the root (`getProviderRecord`
walks to the parent); a request-scope container is a container identifier
keyed into the per-container `scopedInstances` map, a fresh identifier with
no entries being exactly `createRequestScope()`. The mutable
`resolutionStack` is threaded as a parameter (its push happens where the
source pushes and the `finally` pop is the return); mutation of records and
caches is explicit state. Recursion carries fuel, `ContainerErr.noFuel`
standing for a resolution that has not terminated within it. The
self-registration of the `Container` token, `resolveAll`, `has`,
`getRegisteredTokens` and `clear` play no part in the claims and are not
modelled. -/

/-- Provider scope (`SCOPE` of constants.ts). -/
inductive Scope where
  | singleton
  | request
  | transient
deriving DecidableEq, Repr

/-- Settled (non-promise) JavaScript value: an object instance identified by
its allocation number, `undefined`, or a primitive literal. -/
inductive PureVal where
  | obj (id : Nat)
  | undef
  | lit (n : Nat)
deriving DecidableEq, Repr

/-- Resolution value: a settled value, or a promise of one
(`isAsync = true` models `value instanceof Promise`). -/
structure RVal where
  isAsync : Bool
  val : PureVal
deriving DecidableEq, Repr

/-- Result description of a `useFactory` function: a fresh object, the
`undefined` value, or a primitive literal. -/
inductive Produce where
  | fresh
  | undefResult
  | lit (n : Nat)
deriving DecidableEq, Repr

/-- Construction strategy of a provider record, the `factory` closure
`createProviderRecord` installs: class construction with the constructor
dependency list (token name and `optional` flag, as `getConstructorDependencies`
yields them), a `useFactory` with its `inject` token list, result description
and asynchrony, a `useValue`, or a `useExisting` forward to another token. -/
inductive FactorySpec where
  | classFactory (deps : List (String × Bool))
  | fnFactory (inject : List String) (produce : Produce) (isAsync : Bool)
  | valueFactory (v : PureVal)
  | aliasFactory (target : String)
deriving DecidableEq, Repr

/-- Embeds `ProviderRecord`: scope, factory, cached `instance` (`undef`
models both the absent field and a cached `undefined`, which JavaScript
cannot tell apart under the `!== undefined` test), and `isResolved`. -/
structure ProviderRecord where
  scope : Scope
  factory : FactorySpec
  inst : PureVal
  isResolved : Bool
deriving DecidableEq, Repr

/-- Mutable state of the container tree: the root registration map, the
per-container `scopedInstances` maps keyed by container identifier, the
allocation counter, and the log of tokens whose record factory was invoked
(observing which resolutions ran a factory). -/
structure ContainerState where
  records : List (String × ProviderRecord)
  scopes : List (Nat × List (String × PureVal))
  nextId : Nat
  calls : List String
deriving DecidableEq, Repr

/-- Embeds the container error taxonomy: `CircularDependencyError` carries
the path `[...resolutionStack, token]`, `TokenNotFoundError` the token, the
generic `ContainerError` of `resolve()` the async provider token. `noFuel`
is the embedding's marker for a resolution that does not terminate within
the given fuel. -/
inductive ContainerErr where
  | noFuel
  | tokenNotFound (token : String)
  | circular (path : List String)
  | syncAsync (token : String)
deriving DecidableEq, Repr

/-- Message of a container error (`getTokenName` is the identity here since
tokens are carried by name). -/
def ContainerErr.message : ContainerErr → String
  | ContainerErr.noFuel => "resolution did not terminate"
  | ContainerErr.tokenNotFound t => "No provider found for token: " ++ t
  | ContainerErr.circular p =>
    "Circular dependency detected: " ++ String.intercalate " -> " p
  | ContainerErr.syncAsync t =>
    "Cannot use resolve() for async provider " ++ t ++ ". Use resolveAsync() instead."

/-- Lookup of a token's record, `getProviderRecord` (the walk to the parent
is the shared root map). -/
def getRecord (st : ContainerState) (tok : String) : Option ProviderRecord :=
  Flareone.mapGet st.records tok

/-- Mutation `record.instance = v; record.isResolved = true` of
`resolveSingleton` on the record of `tok`. -/
def setRecordInst (st : ContainerState) (tok : String) (v : PureVal) : ContainerState :=
  { st with
    records := st.records.map (fun p =>
      if p.1 == tok then (p.1, { p.2 with inst := v, isResolved := true }) else p) }

/-- Read of `this.scopedInstances.get(token)` on container `cid` (`none`
is `has(token) = false`). -/
def getScoped (st : ContainerState) (cid : Nat) (tok : String) : Option PureVal :=
  match Flareone.mapGet st.scopes cid with
  | none => none
  | some m => Flareone.mapGet m tok

/-- Mutation `this.scopedInstances.set(token, v)` on container `cid`. -/
def setScoped (st : ContainerState) (cid : Nat) (tok : String) (v : PureVal) : ContainerState :=
  let m := (Flareone.mapGet st.scopes cid).getD []
  { st with scopes := Flareone.mapSet st.scopes cid (Flareone.mapSet m tok v) }

/-- Allocation or literal result of a factory body: `fresh` is `new` (the
next allocation identifier). -/
def applyProduce (p : Produce) (st : ContainerState) : PureVal × ContainerState :=
  match p with
  | Produce.fresh => (PureVal.obj st.nextId, { st with nextId := st.nextId + 1 })
  | Produce.undefResult => (PureVal.undef, st)
  | Produce.lit n => (PureVal.lit n, st)

mutual

/-- Embeds `Container.resolveInternal`: the circular check against the
resolution stack, the record lookup with the `optional` escape, and the
scope dispatch. One unit of fuel is spent per entry. -/
def resolveInternal (fuel : Nat) (cid : Nat) (stack : List String) (tok : String)
    (opt : Bool) (st : ContainerState) : Except ContainerErr RVal × ContainerState :=
  match fuel with
  | 0 => (Except.error ContainerErr.noFuel, st)
  | fuel + 1 =>
    if stack.contains tok then
      (Except.error (ContainerErr.circular (stack ++ [tok])), st)
    else
      match getRecord st tok with
      | none =>
        if opt then (Except.ok { isAsync := false, val := PureVal.undef }, st)
        else (Except.error (ContainerErr.tokenNotFound tok), st)
      | some record =>
        match record.scope with
        | Scope.singleton => resolveSingleton fuel cid stack tok record st
        | Scope.request => resolveRequestScoped fuel cid stack tok record st
        | Scope.transient => resolveTransient fuel cid stack tok record st
termination_by (fuel, 0, 0)

/-- Embeds `Container.resolveSingleton`: the cache test
`record.isResolved && record.instance !== undefined`, the stack push around
the factory, caching of a settled result, and the promise result returned
uncached (the source caches it in a `.then` continuation that runs only
when the promise is awaited, which no synchronous observer sees). -/
def resolveSingleton (fuel : Nat) (cid : Nat) (stack : List String) (tok : String)
    (record : ProviderRecord) (st : ContainerState) :
    Except ContainerErr RVal × ContainerState :=
  if record.isResolved && !(record.inst == PureVal.undef) then
    (Except.ok { isAsync := false, val := record.inst }, st)
  else
    match runFactory fuel cid (stack ++ [tok]) tok record.factory st with
    | (Except.ok rv, st1) =>
      if rv.isAsync then (Except.ok rv, st1)
      else (Except.ok rv, setRecordInst st1 tok rv.val)
    | (Except.error e, st1) => (Except.error e, st1)
termination_by (fuel, 5, 0)

/-- Embeds `Container.resolveRequestScoped`: the scoped-cache test
(`Map.has`, so a cached `undefined` hits), the stack push around the
factory, caching of a settled result in this container's scoped map, and
the promise result returned uncached as in `resolveSingleton`. -/
def resolveRequestScoped (fuel : Nat) (cid : Nat) (stack : List String) (tok : String)
    (record : ProviderRecord) (st : ContainerState) :
    Except ContainerErr RVal × ContainerState :=
  match getScoped st cid tok with
  | some v => (Except.ok { isAsync := false, val := v }, st)
  | none =>
    match runFactory fuel cid (stack ++ [tok]) tok record.factory st with
    | (Except.ok rv, st1) =>
      if rv.isAsync then (Except.ok rv, st1)
      else (Except.ok rv, setScoped st1 cid tok rv.val)
    | (Except.error e, st1) => (Except.error e, st1)
termination_by (fuel, 5, 0)

/-- Embeds `Container.resolveTransient`: the factory runs on every
resolution, with no cache and no push onto the resolution stack. -/
def resolveTransient (fuel : Nat) (cid : Nat) (stack : List String) (tok : String)
    (record : ProviderRecord) (st : ContainerState) :
    Except ContainerErr RVal × ContainerState :=
  runFactory fuel cid stack tok record.factory st
termination_by (fuel, 5, 0)

/-- Embeds the factory closures `createProviderRecord` installs, logging the
invocation: class construction, `useFactory` (whose `inject` list resolves
through the synchronous `container.resolve`), `useValue`, and `useExisting`
(a `container.resolve` of the target). -/
def runFactory (fuel : Nat) (cid : Nat) (stack : List String) (tok : String)
    (fac : FactorySpec) (st : ContainerState) :
    Except ContainerErr RVal × ContainerState :=
  let st0 := { st with calls := st.calls ++ [tok] }
  match fac with
  | FactorySpec.classFactory deps => instantiateClass fuel cid stack deps st0
  | FactorySpec.fnFactory inject produce isAsync =>
    match resolveInjected fuel cid stack inject st0 with
    | (Except.ok _, st1) =>
      let r := applyProduce produce st1
      (Except.ok { isAsync := isAsync, val := r.1 }, r.2)
    | (Except.error e, st1) => (Except.error e, st1)
  | FactorySpec.valueFactory v => (Except.ok { isAsync := false, val := v }, st0)
  | FactorySpec.aliasFactory target =>
    match resolveSyncInside fuel cid stack target st0 with
    | (Except.ok v, st1) => (Except.ok { isAsync := false, val := v }, st1)
    | (Except.error e, st1) => (Except.error e, st1)
termination_by (fuel, 4, 0)

/-- Embeds `Container.instantiateClass`: resolve every constructor
dependency through `resolveInternal` (honoring `optional`), then construct;
when any argument is a promise the construction is deferred behind
`Promise.all` and the overall value is a promise (the embedding allots the
instance identifier eagerly; only the promise flag is observable before an
await). The arity warning has no observable effect and is not modelled. -/
def instantiateClass (fuel : Nat) (cid : Nat) (stack : List String)
    (deps : List (String × Bool)) (st : ContainerState) :
    Except ContainerErr RVal × ContainerState :=
  match resolveDeps fuel cid stack deps st with
  | (Except.ok args, st1) =>
    let hasAsync := args.any (fun a => a.isAsync)
    let r := applyProduce Produce.fresh st1
    (Except.ok { isAsync := hasAsync, val := r.1 }, r.2)
  | (Except.error e, st1) => (Except.error e, st1)
termination_by (fuel, 3, 0)

/-- Embeds the `dependencies.map(... container.resolveInternal(token,
\x7boptional\x7d))` loop of `instantiateClass`: dependencies resolve in
order and the first thrown error aborts. -/
def resolveDeps (fuel : Nat) (cid : Nat) (stack : List String)
    (deps : List (String × Bool)) (st : ContainerState) :
    Except ContainerErr (List RVal) × ContainerState :=
  match deps with
  | [] => (Except.ok [], st)
  | (tok, opt) :: rest =>
    match resolveInternal fuel cid stack tok opt st with
    | (Except.ok rv, st1) =>
      match resolveDeps fuel cid stack rest st1 with
      | (Except.ok rvs, st2) => (Except.ok (rv :: rvs), st2)
      | (Except.error e, st2) => (Except.error e, st2)
    | (Except.error e, st1) => (Except.error e, st1)
termination_by (fuel, 2, deps.length)

/-- Embeds the `inject.map((dep) => container.resolve(dep))` loop of the
`useFactory` closure: each injected token resolves through the synchronous
entry point, in order, first error aborts. -/
def resolveInjected (fuel : Nat) (cid : Nat) (stack : List String)
    (inject : List String) (st : ContainerState) :
    Except ContainerErr (List PureVal) × ContainerState :=
  match inject with
  | [] => (Except.ok [], st)
  | tok :: rest =>
    match resolveSyncInside fuel cid stack tok st with
    | (Except.ok v, st1) =>
      match resolveInjected fuel cid stack rest st1 with
      | (Except.ok vs, st2) => (Except.ok (v :: vs), st2)
      | (Except.error e, st2) => (Except.error e, st2)
    | (Except.error e, st1) => (Except.error e, st1)
termination_by (fuel, 2, inject.length)

/-- Embeds a `container.resolve(token)` called from inside a factory: the
same `resolveInternal` on the same container (hence the same live resolution
stack), with the `instanceof Promise` test throwing the generic
`ContainerError` on an async result. -/
def resolveSyncInside (fuel : Nat) (cid : Nat) (stack : List String) (tok : String)
    (st : ContainerState) : Except ContainerErr PureVal × ContainerState :=
  match resolveInternal fuel cid stack tok false st with
  | (Except.ok rv, st1) =>
    if rv.isAsync then (Except.error (ContainerErr.syncAsync tok), st1)
    else (Except.ok rv.val, st1)
  | (Except.error e, st1) => (Except.error e, st1)
termination_by (fuel, 1, 0)

end

/-- Embeds the public `Container.resolve`: `resolveInternal` from an empty
resolution stack, with the `instanceof Promise` test throwing the generic
`ContainerError`. -/
def resolve (fuel : Nat) (cid : Nat) (tok : String) (opt : Bool)
    (st : ContainerState) : Except ContainerErr PureVal × ContainerState :=
  match resolveInternal fuel cid [] tok opt st with
  | (Except.ok rv, st1) =>
    if rv.isAsync then (Except.error (ContainerErr.syncAsync tok), st1)
    else (Except.ok rv.val, st1)
  | (Except.error e, st1) => (Except.error e, st1)

/-- Embeds the public `Container.resolveAsync` with the returned future
awaited: the promise flag is unwrapped (deferred cache writes hanging on
that promise are not modelled; no claim resolves again after an await). -/
def resolveAsync (fuel : Nat) (cid : Nat) (tok : String) (opt : Bool)
    (st : ContainerState) : Except ContainerErr PureVal × ContainerState :=
  match resolveInternal fuel cid [] tok opt st with
  | (Except.ok rv, st1) => (Except.ok rv.val, st1)
  | (Except.error e, st1) => (Except.error e, st1)

/-- Record built by `createProviderRecord` for a class provider or a bare
class (`useClass`, default scope singleton at the call sites). -/
def classRecord (scope : Scope) (deps : List (String × Bool)) : ProviderRecord :=
  { scope := scope, factory := FactorySpec.classFactory deps
    inst := PureVal.undef, isResolved := false }

/-- Record built by `createProviderRecord` for a value provider: already
resolved, scope singleton. -/
def valueRecord (v : PureVal) : ProviderRecord :=
  { scope := Scope.singleton, factory := FactorySpec.valueFactory v
    inst := v, isResolved := true }

/-- Record built by `createProviderRecord` for a factory provider. -/
def factoryRecord (scope : Scope) (inject : List String) (produce : Produce)
    (isAsync : Bool) : ProviderRecord :=
  { scope := scope, factory := FactorySpec.fnFactory inject produce isAsync
    inst := PureVal.undef, isResolved := false }

/-- Record built by `createProviderRecord` for an existing (alias) provider:
scope singleton. -/
def aliasRecord (target : String) : ProviderRecord :=
  { scope := Scope.singleton, factory := FactorySpec.aliasFactory target
    inst := PureVal.undef, isResolved := false }

/-- Fresh container state over a registration map: no request scopes used
yet, no allocations, no factory calls. -/
def initialState (records : List (String × ProviderRecord)) : ContainerState :=
  { records := records, scopes := [], nextId := 0, calls := [] }

end Flareone.DI

namespace Flareone

/-! ## Verification apparatus
Predicates and derived notions used by the theorem statements: they are
about the embedded program, not part of it. -/

/-- Keys of an association list occur at most once (true of every
materialized JavaScript object or `Map`). -/
def keysNodup {α β : Type} (m : List (α × β)) : Prop :=
  (m.map Prod.fst).Nodup

end Flareone

namespace Flareone.Router

/-- One position of an instantiated route: the registered template segment
together with the concrete request text that occupies it in the matched
path. -/
inductive ISeg where
  | staticSeg (s : Seg)
  | paramSeg (name : Seg) (value : Seg)
  | wildcardSeg (name : Seg) (values : List Seg)
deriving DecidableEq, Repr

/-- Registered segment text of one route position (`:name` for a parameter,
`*name` for a wildcard). -/
def ISeg.template : ISeg → Seg
  | ISeg.staticSeg s => s
  | ISeg.paramSeg name _ => ':' :: name
  | ISeg.wildcardSeg name _ => '*' :: name

/-- Registered path of an instantiated route, as segments. -/
def templateSegs (route : List ISeg) : List Seg :=
  route.map ISeg.template

/-- Request path of an instantiated route, as segments: the static text at
static positions, the chosen value at parameter positions, the chosen
segment list at a wildcard. -/
def requestSegs : List ISeg → List Seg
  | [] => []
  | ISeg.staticSeg s :: rest => s :: requestSegs rest
  | ISeg.paramSeg _ value :: rest => value :: requestSegs rest
  | ISeg.wildcardSeg _ values :: rest => values ++ requestSegs rest

/-- Parameter map the match of an instantiated route should produce: one
binding per parameter position, the wildcard bound to its joined remainder. -/
def routeBindings : List ISeg → Params
  | [] => []
  | ISeg.staticSeg _ :: rest => routeBindings rest
  | ISeg.paramSeg name value :: rest => (name, value) :: routeBindings rest
  | ISeg.wildcardSeg name values :: rest => (name, joinSlash values) :: routeBindings rest

/-- Names bound by an instantiated route, in order. -/
def bindingNames : List ISeg → List Seg
  | [] => []
  | ISeg.staticSeg _ :: rest => bindingNames rest
  | ISeg.paramSeg name _ :: rest => name :: bindingNames rest
  | ISeg.wildcardSeg name _ :: rest => name :: bindingNames rest

/-- Shape constraints on one route position: a static segment is non-empty
and is not classified as a parameter or wildcard; a parameter name is
non-empty and has no parenthesis (so `parseSegment` reads it back as a
plain parameter); a wildcard has a non-empty name and captures at least one
segment. -/
def ISeg.wellFormed : ISeg → Prop
  | ISeg.staticSeg s => s ≠ [] ∧ firstCharOf s ≠ ':' ∧ firstCharOf s ≠ '*'
  | ISeg.paramSeg name _ => name ≠ [] ∧ '(' ∉ name
  | ISeg.wildcardSeg name values => name ≠ [] ∧ values ≠ []

/-- A wildcard position, if present, is the last (a wildcard consumes every
remaining request segment, so nothing can follow it). -/
def wildcardOnlyLast : List ISeg → Prop
  | [] => True
  | ISeg.wildcardSeg _ _ :: rest => rest = []
  | _ :: rest => wildcardOnlyLast rest

/-- A non-conflicting single route: every position well-formed, the bound
names pairwise distinct, any wildcard last. -/
def validRoute (route : List ISeg) : Prop :=
  (∀ s ∈ route, s.wellFormed) ∧ (bindingNames route).Nodup ∧ wildcardOnlyLast route

/-- Node with no children of any kind (a freshly created node, in
particular the root of a fresh router). -/
def bareNode (n : RadixNode) : Prop :=
  n.children = [] ∧ n.paramChild = none ∧ n.wildcardChild = none

mutual

/-- No node of this subtree has a wildcard child. -/
def noWildcardNode : RadixNode → Bool
  | RadixNode.node _ _ _ children pChild wChild _ _ =>
    wChild.isNone && noWildcardOpt pChild && noWildcardChildren children

/-- Wildcard-freeness of an optional child. -/
def noWildcardOpt : Option RadixNode → Bool
  | none => true
  | some n => noWildcardNode n

/-- Wildcard-freeness of a static-children map. -/
def noWildcardChildren : List (Char × RadixNode) → Bool
  | [] => true
  | (_, n) :: rest => noWildcardNode n && noWildcardChildren rest

end

end Flareone.Router

namespace Flareone.DI

/-- Tokens a factory resolves while it runs: constructor dependencies of a
class provider, the `inject` list of a factory provider, the target of an
alias. These are the edges of the registered dependency graph. -/
def depTokens : FactorySpec → List String
  | FactorySpec.classFactory deps => deps.map (fun d => d.1)
  | FactorySpec.fnFactory inject _ _ => inject
  | FactorySpec.valueFactory _ => []
  | FactorySpec.aliasFactory target => [target]

/-- Asynchrony declared by a factory shape (class construction itself is
synchronous; its asynchrony only arrives through asynchronous arguments). -/
def FactorySpec.asyncFlag : FactorySpec → Bool
  | FactorySpec.fnFactory _ _ a => a
  | _ => false

/-- Dependency edge of a registry: `a` has a registered provider whose
factory resolves `b`. -/
def Edge (R : List (String × ProviderRecord)) (a b : String) : Prop :=
  ∃ rec, Flareone.mapGet R a = some rec ∧ b ∈ depTokens rec.factory

/-- Token that depends on itself directly or transitively. -/
def ReachesSelf (R : List (String × ProviderRecord)) (t : String) : Prop :=
  Relation.TransGen (Edge R) t t

/-- Factory that allocates a fresh object on every run: class construction
(`new cls`) or a `useFactory` returning a fresh object. -/
def allocFactory : FactorySpec → Prop
  | FactorySpec.classFactory _ => True
  | FactorySpec.fnFactory _ produce isAsync => produce = Produce.fresh ∧ isAsync = false
  | _ => False

/-- Registration shape of a record: what never changes across resolutions. -/
def recShape (r : ProviderRecord) : Scope × FactorySpec :=
  (r.scope, r.factory)

/-- Registration shapes of a record list. -/
def shapes (rs : List (String × ProviderRecord)) : List (String × Scope × FactorySpec) :=
  rs.map (fun p => (p.1, recShape p.2))

/-- State whose registrations have the shape of the registry `R` (cached
instances may differ; scope and factory of every token agree with `R`). -/
def ShapeOK (R : List (String × ProviderRecord)) (st : ContainerState) : Prop :=
  shapes st.records = shapes R

/-- No token lying on a dependency cycle has a cached instance, neither on
its record nor in any scoped cache (true of a freshly registered registry,
and preserved by resolution since a cyclic token never resolves). -/
def CycleInv (R : List (String × ProviderRecord)) (st : ContainerState) : Prop :=
  ∀ t, ReachesSelf R t →
    (∀ rec, getRecord st t = some rec → rec.isResolved = false ∨ rec.inst = PureVal.undef) ∧
    (∀ cid, getScoped st cid t = none)

/-- Well-behaved registry for the circular-detection statement: distinct
token keys, no transient scope, no asynchronous factory, every dependency
token registered. -/
def GoodRegistry (R : List (String × ProviderRecord)) : Prop :=
  (R.map Prod.fst).Nodup ∧
  ∀ t rec, Flareone.mapGet R t = some rec →
    rec.scope ≠ Scope.transient ∧ rec.factory.asyncFlag = false ∧
    ∀ d ∈ depTokens rec.factory, (Flareone.mapGet R d).isSome

/-- Every token on a cycle starts uncached (true right after registration:
`createProviderRecord` caches only value providers, which have no
dependencies and hence lie on no cycle). -/
def FreshCycles (R : List (String × ProviderRecord)) : Prop :=
  ∀ t, ReachesSelf R t → ∀ rec, Flareone.mapGet R t = some rec →
    rec.isResolved = false ∨ rec.inst = PureVal.undef

/-- Shape of a `CircularDependencyError` path thrown by a call whose live
resolution stack is `stack`: the stack extended along dependency edges down
to the repeated token. -/
def CircShape (R : List (String × ProviderRecord)) (stack p : List String) : Prop :=
  ∃ ext u, p = stack ++ ext ++ [u] ∧ u ∈ stack ++ ext ∧
    List.Chain' (Edge R) (stack ++ ext ++ [u])

/-- State relation every resolution respects: registration shapes are
unchanged, the allocation counter never decreases, the call log only grows,
and scoped caches of other containers are untouched. -/
def Evolves (cid : Nat) (st st1 : ContainerState) : Prop :=
  shapes st1.records = shapes st.records ∧
  st.nextId ≤ st1.nextId ∧
  st.calls <+: st1.calls ∧
  ∀ c tok, c ≠ cid → getScoped st1 c tok = getScoped st c tok

/-- Repeated synchronous resolution of one token, threading the state
(observing, through the call log, how often the factory runs). -/
def resolveTimes (fuel cid : Nat) (tok : String) : Nat → ContainerState → ContainerState
  | 0, st => st
  | k + 1, st => resolveTimes fuel cid tok k (resolve fuel cid tok false st).2

end Flareone.DI

/-! # Theorems -/

namespace Flareone

/-! ## Association-list lemmas (shared) -/

section MapLemmas

variable {α β : Type} [BEq α] [LawfulBEq α]

theorem mapGet_nil (k : α) : mapGet ([] : List (α × β)) k = none := rfl

theorem mapGet_cons (p : α × β) (m : List (α × β)) (k : α) :
    mapGet (p :: m) k = if p.1 == k then some p.2 else mapGet m k := by
  simp only [mapGet, List.find?]
  by_cases h : p.1 == k
  · simp [h]
  · simp [h]

theorem mapGet_eq_none_iff (m : List (α × β)) (k : α) :
    mapGet m k = none ↔ ∀ p ∈ m, ¬ p.1 = k := by
  induction m with
  | nil => simp [mapGet_nil]
  | cons p m ih =>
    rw [mapGet_cons]
    by_cases h : p.1 == k
    · simp only [if_pos h]
      simp only [beq_iff_eq] at h
      simp [h]
    · simp only [if_neg h]
      simp only [beq_iff_eq] at h
      simp [ih, h]

theorem any_key_eq_false_iff (m : List (α × β)) (k : α) :
    (m.any (fun p => p.1 == k)) = false ↔ mapGet m k = none := by
  rw [mapGet_eq_none_iff]
  simp

theorem mapSet_of_get_none {m : List (α × β)} {k : α} (v : β)
    (h : mapGet m k = none) : mapSet m k v = m ++ [(k, v)] := by
  unfold mapSet
  rw [if_neg]
  rw [← any_key_eq_false_iff] at h
  simp [h]

theorem mapGet_mapSet_self (m : List (α × β)) (k : α) (v : β) :
    mapGet (mapSet m k v) k = some v := by
  unfold mapSet
  by_cases h : m.any (fun p => p.1 == k)
  · rw [if_pos h]
    induction m with
    | nil => simp at h
    | cons p m ih =>
      simp only [List.any_cons, Bool.or_eq_true] at h
      by_cases hp : p.1 == k
      · simp [mapGet_cons, hp]
      · simp only [List.map_cons, if_neg hp]
        rw [mapGet_cons, if_neg hp]
        apply ih
        rcases h with h | h
        · exact absurd h hp
        · exact h
  · rw [if_neg h]
    induction m with
    | nil => simp [mapGet_cons]
    | cons p m ih =>
      simp only [List.any_cons, Bool.or_eq_true, not_or] at h
      rw [List.cons_append, mapGet_cons, if_neg h.1]
      exact ih h.2

theorem mapGet_append (l1 l2 : List (α × β)) (k : α) :
    mapGet (l1 ++ l2) k =
      match mapGet l1 k with
      | some v => some v
      | none => mapGet l2 k := by
  induction l1 with
  | nil => simp [mapGet_nil]
  | cons p l1 ih =>
    rw [List.cons_append, mapGet_cons, mapGet_cons]
    by_cases h : p.1 == k
    · simp [h]
    · simp [h, ih]

theorem mapGet_mapSet_ne (m : List (α × β)) {k k' : α} (v : β) (h : ¬ k' = k) :
    mapGet (mapSet m k v) k' = mapGet m k' := by
  have hkk : ¬ (k == k') = true := by
    simp only [beq_iff_eq]
    exact fun hh => h hh.symm
  unfold mapSet
  by_cases ha : m.any (fun p => p.1 == k)
  · rw [if_pos ha]
    clear ha
    induction m with
    | nil => rfl
    | cons p m ih =>
      simp only [List.map_cons]
      by_cases hp : p.1 == k
      · have hpk : p.1 = k := by simpa using hp
        rw [if_pos hp, mapGet_cons, mapGet_cons]
        have h2 : ¬ (p.1 == k') = true := by
          simp only [hpk, beq_iff_eq]
          exact fun hh => h hh.symm
        rw [if_neg (by simpa using hkk), if_neg h2]
        exact ih
      · rw [if_neg hp, mapGet_cons, mapGet_cons]
        by_cases hk : p.1 == k'
        · rw [if_pos hk, if_pos hk]
        · rw [if_neg hk, if_neg hk]
          exact ih
  · rw [if_neg ha, mapGet_append]
    rw [mapGet_cons, mapGet_nil, if_neg hkk]
    cases mapGet m k' <;> rfl

theorem mapDelete_of_get_none {m : List (α × β)} {k : α}
    (h : mapGet m k = none) : mapDelete m k = m := by
  rw [mapGet_eq_none_iff] at h
  unfold mapDelete
  induction m with
  | nil => rfl
  | cons p m ih =>
    rw [List.filter_cons]
    have hp : ¬ p.1 = k := h p (by simp)
    rw [if_pos (by simp [hp])]
    rw [ih (fun q hq => h q (by simp [hq]))]

theorem mapDelete_append (l1 l2 : List (α × β)) (k : α) :
    mapDelete (l1 ++ l2) k = mapDelete l1 k ++ mapDelete l2 k := by
  simp [mapDelete, List.filter_append]

theorem mapDelete_mapSet_of_none {m : List (α × β)} {k : α} (v : β)
    (h : mapGet m k = none) : mapDelete (mapSet m k v) k = m := by
  rw [mapSet_of_get_none v h, mapDelete_append, mapDelete_of_get_none h]
  simp [mapDelete]

theorem mapSet_mapSet_self (m : List (α × β)) (k : α) (v w : β) :
    mapSet (mapSet m k v) k w = mapSet m k w := by
  by_cases ha : m.any (fun p => p.1 == k)
  · unfold mapSet
    rw [if_pos ha]
    have hb : (List.map (fun p => if (p.1 == k) = true then (k, v) else p) m).any
        (fun p => p.1 == k) = true := by
      simp only [List.any_map, List.any_eq_true] at ha ⊢
      obtain ⟨p, hp, hpk⟩ := ha
      refine ⟨p, hp, ?_⟩
      simp only [Function.comp]
      rw [if_pos hpk]
      simp
    rw [if_pos hb, if_pos ha, List.map_map]
    apply List.map_congr_left
    intro p _
    by_cases hp : p.1 == k
    · simp [Function.comp, hp]
    · simp [Function.comp, hp]
  · have hget := (any_key_eq_false_iff m k).mp (Bool.eq_false_iff.mpr ha)
    rw [mapSet_of_get_none v hget]
    unfold mapSet
    have h2 : ((m ++ [(k, v)]).any fun p => p.1 == k) = true := by
      simp
    rw [if_pos h2, if_neg ha, List.map_append]
    have hm : List.map (fun p => if (p.1 == k) = true then (k, w) else p) m = m := by
      conv_rhs => rw [← List.map_id m]
      apply List.map_congr_left
      intro p hp
      rw [mapGet_eq_none_iff] at hget
      simp [hget p hp]
    rw [hm]
    simp

theorem mapSet_self_of_get {m : List (α × β)} {k : α} {v : β}
    (hnd : keysNodup m) (h : mapGet m k = some v) : mapSet m k v = m := by
  unfold mapSet
  by_cases ha : m.any (fun p => p.1 == k)
  · rw [if_pos ha]
    clear ha
    induction m with
    | nil => rw [mapGet_nil] at h; exact Option.noConfusion h
    | cons p m ih =>
      rw [mapGet_cons] at h
      simp only [List.map_cons]
      by_cases hp : p.1 == k
      · rw [if_pos hp] at h
        have hpk : p.1 = k := by simpa using hp
        have hv : p.2 = v := by injection h
        have hrest : List.map (fun q => if (q.1 == k) = true then (k, v) else q) m = m := by
          conv_rhs => rw [← List.map_id m]
          apply List.map_congr_left
          intro q hq
          have hqk : ¬ q.1 = k := by
            simp only [keysNodup, List.map_cons, List.nodup_cons] at hnd
            intro hqk
            have hmem : q.1 ∈ List.map Prod.fst m := List.mem_map_of_mem Prod.fst hq
            rw [hqk, ← hpk] at hmem
            exact hnd.1 hmem
          simp [hqk]
        rw [if_pos hp, hrest]
        cases p with
        | mk a b =>
          simp only at hpk hv
          rw [hpk, hv]
      · rw [if_neg hp] at h
        rw [if_neg hp]
        have hnd2 : keysNodup m := by
          simp only [keysNodup, List.map_cons, List.nodup_cons] at hnd
          exact hnd.2
        rw [ih hnd2 h]
  · exfalso
    have := (any_key_eq_false_iff m k).mp (Bool.eq_false_iff.mpr ha)
    rw [this] at h
    exact Option.noConfusion h

theorem keysNodup_mapSet (m : List (α × β)) (k : α) (v : β)
    (h : keysNodup m) : keysNodup (mapSet m k v) := by
  unfold mapSet
  by_cases ha : m.any (fun p => p.1 == k)
  · rw [if_pos ha]
    unfold keysNodup at h ⊢
    have : List.map Prod.fst (List.map (fun p => if (p.1 == k) = true then (k, v) else p) m)
        = List.map Prod.fst m := by
      rw [List.map_map]
      apply List.map_congr_left
      intro p _
      by_cases hp : p.1 == k
      · simp only [Function.comp]
        rw [if_pos hp]
        simpa using (by simpa using hp : p.1 = k).symm
      · simp only [Function.comp]
        rw [if_neg hp]
    rw [this]
    exact h
  · have hget := (any_key_eq_false_iff m k).mp (Bool.eq_false_iff.mpr ha)
    rw [if_neg ha]
    unfold keysNodup at h ⊢
    rw [List.map_append, List.nodup_append]
    refine ⟨h, by simp, ?_⟩
    intro a hamem
    simp only [List.map_cons, List.map_nil, List.mem_singleton]
    rw [mapGet_eq_none_iff] at hget
    simp only [List.mem_map] at hamem
    obtain ⟨p, hp, hpa⟩ := hamem
    intro hak
    exact hget p hp (by rw [← hpa] at hak; exact hak)

end MapLemmas


end Flareone

namespace Flareone

/-! ## C1: interceptor chain order -/

theorem buildChainEvents_spec (l : List Nat) :
    ∀ k, k ≤ l.length →
      buildChainEvents l k =
        ((l.take k).reverse.map Event.before) ++
          Event.handler :: ((l.take k).map Event.after)
  | 0, _ => rfl
  | k + 1, hk => by
    have hk1 : k < l.length := hk
    have hgd : l.getD k 0 = l[k] := by
      rw [List.getD_eq_getElem?_getD, List.getElem?_eq_getElem hk1]
      rfl
    have htake : l.take (k + 1) = l.take k ++ [l[k]] := by
      rw [List.take_succ, List.getElem?_eq_getElem hk1]
      rfl
    show Event.before (l.getD k 0) ::
        (buildChainEvents l k ++ [Event.after (l.getD k 0)]) = _
    rw [hgd, buildChainEvents_spec l k (le_of_lt hk1)]
    have htakeB : (List.map Event.before l).take (k + 1)
        = (List.map Event.before l).take k ++ [Event.before l[k]] := by
      rw [List.take_succ, List.getElem?_map, List.getElem?_eq_getElem hk1]
      rfl
    have htakeA : (List.map Event.after l).take (k + 1)
        = (List.map Event.after l).take k ++ [Event.after l[k]] := by
      rw [List.take_succ, List.getElem?_map, List.getElem?_eq_getElem hk1]
      rfl
    simp only [List.map_take, List.map_reverse, List.map_append, List.map_cons]
    rw [htakeB, htakeA]
    simp [List.reverse_append]

/-- C1 (amended): the interceptor chain of `executePipeline` enters the
interceptors in reverse registration order — the last-registered
(route-level) interceptor is the outermost wrapper — and unwinds in
registration order: for interceptors `l` the observed events are the
before-statements along `l.reverse`, the handler, then the
after-statements along `l`. -/
theorem interceptor_chain_order_amended (globalInterceptors routeInterceptors : List Nat) :
    interceptorStageEvents globalInterceptors routeInterceptors =
      ((globalInterceptors ++ routeInterceptors).reverse.map Event.before) ++
        Event.handler :: ((globalInterceptors ++ routeInterceptors).map Event.after) := by
  unfold interceptorStageEvents
  rw [buildChainEvents_spec _ _ (le_refl _), List.take_length]

/-- C1 (counterexample): with interceptors `[A, B]` registered in that
order (`A` global, `B` per-route), the observed order is B-before,
A-before, handler, A-after, B-after — not the claimed A-before, B-before,
handler, B-after, A-after. -/
theorem interceptor_chain_order_counterexample :
    interceptorStageEvents [0] [1] =
      [Event.before 1, Event.before 0, Event.handler, Event.after 0, Event.after 1] ∧
    interceptorStageEvents [0] [1] ≠
      [Event.before 0, Event.before 1, Event.handler, Event.after 1, Event.after 0] := by
  constructor <;> decide

/-! ## C8: guard short-circuit -/

theorem runGuards_first_false (i : Nat) (post : List (Nat × Bool)) :
    ∀ pre, (∀ p ∈ pre, p.2 = true) →
      runGuards (pre ++ (i, false) :: post) =
        (pre.map Prod.fst ++ [i], some { message := "Forbidden", status := 403 })
  | [], _ => rfl
  | (j, b) :: pre, hall => by
    have hb : b = true := hall (j, b) (by simp)
    subst hb
    have ih := runGuards_first_false i post pre (fun p hp => hall p (List.mem_cons_of_mem _ hp))
    rw [List.cons_append]
    show (j :: (runGuards (pre ++ (i, false) :: post)).1,
        (runGuards (pre ++ (i, false) :: post)).2) = _
    rw [ih]
    simp

/-- C8: guards run in order, global guards before per-route guards; when
every guard before position `i` allowed the request and guard `i` returns
false, exactly the guards up to and including `i` have had `canActivate`
invoked — no later guard runs — and the pipeline throws
`HttpException('Forbidden', 403)`. -/
theorem guard_short_circuit (globalGuards routeGuards pre post : List (Nat × Bool)) (i : Nat)
    (hsplit : globalGuards ++ routeGuards = pre ++ (i, false) :: post)
    (hpre : ∀ p ∈ pre, p.2 = true) :
    guardStage globalGuards routeGuards =
      (pre.map Prod.fst ++ [i], some { message := "Forbidden", status := 403 }) := by
  unfold guardStage
  rw [hsplit]
  exact runGuards_first_false i post pre hpre

/-- C8 witness: one passing global guard, then a rejecting route guard
followed by one more guard; only the first two run and the outcome is the
403 error. -/
theorem guard_short_circuit_witness :
    guardStage [(1, true)] [(2, false), (3, true)] =
      ([1, 2], some { message := "Forbidden", status := 403 }) :=
  guard_short_circuit [(1, true)] [(2, false), (3, true)] [(1, true)] [(3, true)] 2 rfl
    (by decide)

end Flareone

namespace Flareone.Exc

/-! ## C9: error envelope -/

theorem objGet_eq_mapGet (o : JObj) (k : String) : objGet o k = Flareone.mapGet o k := rfl

theorem objSet_eq_mapSet (o : JObj) (k : String) (v : JVal) :
    objSet o k v = Flareone.mapSet o k v := rfl

theorem objGet_objSpread (base extra : JObj) (k : String) (hnd : Flareone.keysNodup extra) :
    objGet (objSpread base extra) k =
      match objGet extra k with
      | some v => some v
      | none => objGet base k := by
  induction extra generalizing base with
  | nil =>
    simp only [objSpread, List.foldl_nil]
    rw [objGet_eq_mapGet ([] : JObj), Flareone.mapGet_nil]
  | cons p extra ih =>
    have hnd2 : Flareone.keysNodup extra := by
      simp only [Flareone.keysNodup, List.map_cons, List.nodup_cons] at hnd
      exact hnd.2
    rw [show objSpread base (p :: extra) = objSpread (objSet base p.1 p.2) extra from rfl,
      ih _ hnd2]
    by_cases hp : p.1 == k
    · have hpk : p.1 = k := by simpa using hp
      have hnone : objGet extra k = none := by
        rw [objGet_eq_mapGet, Flareone.mapGet_eq_none_iff]
        intro q hq hqk
        simp only [Flareone.keysNodup, List.map_cons, List.nodup_cons] at hnd
        have hmem : q.1 ∈ List.map Prod.fst extra := List.mem_map_of_mem Prod.fst hq
        rw [hqk, ← hpk] at hmem
        exact hnd.1 hmem
      have hcons : objGet (p :: extra) k = some p.2 := by
        rw [objGet_eq_mapGet, Flareone.mapGet_cons, if_pos hp]
      rw [hnone, hcons]
      show objGet (objSet base p.1 p.2) k = some p.2
      rw [objSet_eq_mapSet, objGet_eq_mapGet, hpk, Flareone.mapGet_mapSet_self]
    · have hcons : objGet (p :: extra) k = objGet extra k := by
        rw [objGet_eq_mapGet, Flareone.mapGet_cons, if_neg hp, objGet_eq_mapGet]
      rw [hcons]
      cases hx : objGet extra k with
      | some v => rfl
      | none =>
        show objGet (objSet base p.1 p.2) k = objGet base k
        have hkp : ¬ k = p.1 := fun hh => hp (by simp [hh])
        rw [objSet_eq_mapSet, objGet_eq_mapGet, Flareone.mapGet_mapSet_ne _ _ hkp,
          ← objGet_eq_mapGet]

/-- C9 (amended): with no exception filter intervening, every error
reaching `handleException` yields a JSON body whose `statusCode` is the
numeric status of the normalized exception; the body carries a `message`
field whenever the exception's response is a string (in particular for
every non-`HttpException` error), and for an object response exactly the
object's own `message` entry, so an `HttpException` whose object response
lacks a `message` key produces a body without one; a `stack` field appears
only when the environment is exactly `development`. The hypothesis states
that an object response — being a materialized JS object — has unique keys
and does not itself spoof the `statusCode` or `stack` fields. -/
theorem exception_envelope_amended (error : ThrownError) (envEnvironment : Option String)
    (hwf : ∀ o, (toHttpException error).response = Sum.inr o →
      Flareone.keysNodup o ∧ objGet o "statusCode" = none ∧ objGet o "stack" = none) :
    (handleException [] error envEnvironment).1 = (toHttpException error).status ∧
    objGet (handleException [] error envEnvironment).2 "statusCode" =
      some (JVal.num (toHttpException error).status) ∧
    (∀ s, (toHttpException error).response = Sum.inl s →
      objGet (handleException [] error envEnvironment).2 "message" = some (JVal.str s)) ∧
    (∀ o, (toHttpException error).response = Sum.inr o →
      objGet (handleException [] error envEnvironment).2 "message" = objGet o "message") ∧
    ((∃ v, objGet (handleException [] error envEnvironment).2 "stack" = some v) →
      envEnvironment = some "development") := by
  have hmain : handleException [] error envEnvironment =
      errorToResponse error (envEnvironment == some "development") := rfl
  rw [hmain]
  rcases hE : toHttpException error with ⟨resp, status, stk⟩
  rw [hE] at hwf
  simp only at hwf
  simp only [errorToResponse, hE]
  have hdev : (envEnvironment == some "development") = true →
      envEnvironment = some "development" := fun hb => by simpa using hb
  cases hb : (envEnvironment == some "development") with
  | true =>
    cases stk with
    | none =>
      cases resp with
      | inl s =>
        refine ⟨rfl, ?_, ?_, ?_, fun _ => hdev hb⟩
        · rw [show HttpExceptionM.toResponse ⟨Sum.inl s, status, none⟩ =
            (status, [("statusCode", JVal.num status), ("message", JVal.str s)]) from rfl]
          rw [objGet_eq_mapGet, Flareone.mapGet_cons]
          simp [Flareone.mapGet_nil]
        · intro s2 hs2
          injection hs2 with hs3
          subst hs3
          rw [show HttpExceptionM.toResponse ⟨Sum.inl s, status, none⟩ =
            (status, [("statusCode", JVal.num status), ("message", JVal.str s)]) from rfl]
          rw [objGet_eq_mapGet, Flareone.mapGet_cons, Flareone.mapGet_cons]
          simp
        · intro o ho
          exact Sum.noConfusion ho
      | inr o =>
        obtain ⟨hnd, hsc, hstk⟩ := hwf o rfl
        refine ⟨rfl, ?_, ?_, ?_, fun _ => hdev hb⟩
        · rw [show HttpExceptionM.toResponse ⟨Sum.inr o, status, none⟩ =
            (status, objSpread [("statusCode", JVal.num status)] o) from rfl]
          rw [objGet_objSpread _ _ _ hnd, hsc, objGet_eq_mapGet, Flareone.mapGet_cons]
          simp
        · intro s2 hs2
          exact Sum.noConfusion hs2
        · intro o2 ho2
          injection ho2 with ho3
          subst ho3
          rw [show HttpExceptionM.toResponse ⟨Sum.inr o, status, none⟩ =
            (status, objSpread [("statusCode", JVal.num status)] o) from rfl]
          rw [objGet_objSpread _ _ _ hnd]
          cases hm : objGet o "message" with
          | some v => rfl
          | none =>
            rw [objGet_eq_mapGet, Flareone.mapGet_cons]
            simp [Flareone.mapGet_nil]
    | some st =>
      cases resp with
      | inl s =>
        refine ⟨rfl, ?_, ?_, ?_, fun _ => hdev hb⟩
        · rw [objGet_eq_mapGet, Flareone.mapGet_cons]
          simp [Flareone.mapGet_nil]
        · intro s2 hs2
          injection hs2 with hs3
          subst hs3
          rw [objGet_eq_mapGet, Flareone.mapGet_cons, Flareone.mapGet_cons]
          simp
        · intro o ho
          exact Sum.noConfusion ho
      | inr o =>
        obtain ⟨hnd, hsc, hstk⟩ := hwf o rfl
        have hndstk : Flareone.keysNodup [("stack", JVal.str st)] := by
          simp [Flareone.keysNodup]
        have hget1 : objGet [("stack", JVal.str st)] "statusCode" = none := by
          rw [objGet_eq_mapGet, Flareone.mapGet_cons]
          simp [Flareone.mapGet_nil]
        have hget2 : objGet [("stack", JVal.str st)] "message" = none := by
          rw [objGet_eq_mapGet, Flareone.mapGet_cons]
          simp [Flareone.mapGet_nil]
        refine ⟨rfl, ?_, ?_, ?_, fun _ => hdev hb⟩
        · rw [objGet_objSpread _ _ _ hndstk, hget1, objGet_objSpread _ _ _ hnd, hsc,
            objGet_eq_mapGet, Flareone.mapGet_cons]
          simp
        · intro s2 hs2
          exact Sum.noConfusion hs2
        · intro o2 ho2
          injection ho2 with ho3
          subst ho3
          rw [objGet_objSpread _ _ _ hndstk, hget2, objGet_objSpread _ _ _ hnd]
          cases hm : objGet o "message" with
          | some v => rfl
          | none =>
            rw [objGet_eq_mapGet, Flareone.mapGet_cons]
            simp [Flareone.mapGet_nil]
  | false =>
    cases resp with
    | inl s =>
      refine ⟨rfl, ?_, ?_, ?_, ?_⟩
      · rw [show HttpExceptionM.toResponse ⟨Sum.inl s, status, stk⟩ =
          (status, [("statusCode", JVal.num status), ("message", JVal.str s)]) from rfl]
        rw [objGet_eq_mapGet, Flareone.mapGet_cons]
        simp [Flareone.mapGet_nil]
      · intro s2 hs2
        injection hs2 with hs3
        subst hs3
        rw [show HttpExceptionM.toResponse ⟨Sum.inl s, status, stk⟩ =
          (status, [("statusCode", JVal.num status), ("message", JVal.str s)]) from rfl]
        rw [objGet_eq_mapGet, Flareone.mapGet_cons, Flareone.mapGet_cons]
        simp
      · intro o ho
        exact Sum.noConfusion ho
      · intro hv
        obtain ⟨v, hv⟩ := hv
        rw [show HttpExceptionM.toResponse ⟨Sum.inl s, status, stk⟩ =
          (status, [("statusCode", JVal.num status), ("message", JVal.str s)]) from rfl] at hv
        rw [objGet_eq_mapGet, Flareone.mapGet_cons, Flareone.mapGet_cons,
          Flareone.mapGet_nil] at hv
        simp at hv
    | inr o =>
      obtain ⟨hnd, hsc, hstk⟩ := hwf o rfl
      refine ⟨rfl, ?_, ?_, ?_, ?_⟩
      · rw [show HttpExceptionM.toResponse ⟨Sum.inr o, status, stk⟩ =
          (status, objSpread [("statusCode", JVal.num status)] o) from rfl]
        rw [objGet_objSpread _ _ _ hnd, hsc, objGet_eq_mapGet, Flareone.mapGet_cons]
        simp
      · intro s2 hs2
        exact Sum.noConfusion hs2
      · intro o2 ho2
        injection ho2 with ho3
        subst ho3
        rw [show HttpExceptionM.toResponse ⟨Sum.inr o, status, stk⟩ =
          (status, objSpread [("statusCode", JVal.num status)] o) from rfl]
        rw [objGet_objSpread _ _ _ hnd]
        cases hm : objGet o "message" with
        | some v => rfl
        | none =>
          rw [objGet_eq_mapGet, Flareone.mapGet_cons]
          simp [Flareone.mapGet_nil]
      · intro hv
        obtain ⟨v, hv⟩ := hv
        rw [show HttpExceptionM.toResponse ⟨Sum.inr o, status, stk⟩ =
          (status, objSpread [("statusCode", JVal.num status)] o) from rfl] at hv
        rw [objGet_objSpread _ _ _ hnd, hstk, objGet_eq_mapGet, Flareone.mapGet_cons,
          Flareone.mapGet_nil] at hv
        simp at hv

end Flareone.Exc

namespace Flareone.Exc

/-- C9 (counterexample): an `HttpException` whose response is an object
without a `message` key, reaching the top-level handler in production,
produces a JSON body that carries the numeric `statusCode` but no
`message` field — the claim promises a `message` field for every error,
including object-shaped `HttpException` responses. -/
theorem exception_envelope_counterexample :
    handleException []
        (ThrownError.http
          { response := Sum.inr [("detail", JVal.str "boom")], status := 418, stack := none })
        (some "production") =
      (418, [("statusCode", JVal.num 418), ("detail", JVal.str "boom")]) ∧
    objGet
        (handleException []
          (ThrownError.http
            { response := Sum.inr [("detail", JVal.str "boom")], status := 418,
              stack := none })
          (some "production")).2 "message" = none := by
  constructor <;> rfl

/-- C9 witness: a plain JS error thrown in production yields statusCode
500 with its message and no stack; the hypotheses of the envelope theorem
hold as its response is a string. -/
theorem exception_envelope_witness :
    (handleException [] (ThrownError.jsError "kaput" none) (some "production")).1 =
      (toHttpException (ThrownError.jsError "kaput" none)).status ∧
    objGet (handleException [] (ThrownError.jsError "kaput" none) (some "production")).2
        "statusCode" =
      some (JVal.num (toHttpException (ThrownError.jsError "kaput" none)).status) ∧
    (∀ s, (toHttpException (ThrownError.jsError "kaput" none)).response = Sum.inl s →
      objGet (handleException [] (ThrownError.jsError "kaput" none) (some "production")).2
        "message" = some (JVal.str s)) ∧
    (∀ o, (toHttpException (ThrownError.jsError "kaput" none)).response = Sum.inr o →
      objGet (handleException [] (ThrownError.jsError "kaput" none) (some "production")).2
        "message" = objGet o "message") ∧
    ((∃ v, objGet (handleException [] (ThrownError.jsError "kaput" none)
        (some "production")).2 "stack" = some v) →
      (some "production" : Option String) = some "development") :=
  exception_envelope_amended (ThrownError.jsError "kaput" none) (some "production")
    (by intro o ho; exact Sum.noConfusion ho)

end Flareone.Exc

namespace Flareone

section MapLemmas2
variable {α β : Type} [BEq α] [LawfulBEq α]

theorem mapGet_update_self (m : List (α × β)) (k : α) (f : β → β) :
    mapGet (m.map (fun p => if (p.1 == k) = true then (p.1, f p.2) else p)) k =
      (mapGet m k).map f := by
  induction m with
  | nil => rfl
  | cons p m ih =>
    by_cases hp : p.1 == k
    · simp only [List.map_cons, if_pos hp]
      rw [mapGet_cons, mapGet_cons, if_pos hp, if_pos hp]
      rfl
    · simp only [List.map_cons, if_neg hp]
      rw [mapGet_cons, mapGet_cons, if_neg hp, if_neg hp]
      exact ih

theorem mapGet_update_ne (m : List (α × β)) {k k' : α} (f : β → β) (h : ¬ k' = k) :
    mapGet (m.map (fun p => if (p.1 == k) = true then (p.1, f p.2) else p)) k' =
      mapGet m k' := by
  induction m with
  | nil => rfl
  | cons p m ih =>
    by_cases hp : p.1 == k
    · have hpk : p.1 = k := by simpa using hp
      have hne : ¬ (p.1 == k') = true := by
        simp only [beq_iff_eq, hpk]
        exact fun hh => h hh.symm
      simp only [List.map_cons, if_pos hp]
      rw [mapGet_cons, mapGet_cons, if_neg hne, if_neg hne]
      exact ih
    · simp only [List.map_cons, if_neg hp]
      rw [mapGet_cons, mapGet_cons]
      by_cases hk : p.1 == k'
      · rw [if_pos hk, if_pos hk]
      · rw [if_neg hk, if_neg hk]
        exact ih

end MapLemmas2

end Flareone

namespace Flareone.DI

/-! ## C10: singleton factory returning undefined -/

theorem getRecord_setRecordInst_self (st : ContainerState) (tok : String) (v : PureVal) :
    getRecord (setRecordInst st tok v) tok =
      (getRecord st tok).map (fun r => { r with inst := v, isResolved := true }) := by
  simp only [getRecord, setRecordInst]
  exact Flareone.mapGet_update_self st.records tok
    (fun r => { r with inst := v, isResolved := true })

theorem undef_singleton_step (fuel cid : Nat) (tok : String) (st : ContainerState)
    (rec : ProviderRecord) (hrec : getRecord st tok = some rec)
    (hscope : rec.scope = Scope.singleton)
    (hfac : rec.factory = FactorySpec.fnFactory [] Produce.undefResult false)
    (hinst : rec.inst = PureVal.undef) :
    resolve (fuel + 1) cid tok false st =
      (Except.ok PureVal.undef,
        setRecordInst { st with calls := st.calls ++ [tok] } tok PureVal.undef) := by
  have hcontains : ([] : List String).contains tok = false := rfl
  simp only [resolve, resolveInternal, hcontains, Bool.false_eq_true, if_false, hrec, hscope,
    resolveSingleton, hinst, hfac, runFactory, resolveInjected, applyProduce]
  simp

/-- C10: the cache test of `resolveSingleton` requires both `isResolved`
and a non-`undefined` instance, so a singleton provider whose factory
returns `undefined` is never served from the cache: after any number of
resolutions the factory has run once per resolution (the call log grows by
the token each time) and the next resolution still runs it and returns
`undefined` — the provider effectively behaves as transient. -/
theorem undefined_singleton_refetch (fuel cid : Nat) (tok : String) (st : ContainerState)
    (rec : ProviderRecord) (hrec : getRecord st tok = some rec)
    (hscope : rec.scope = Scope.singleton)
    (hfac : rec.factory = FactorySpec.fnFactory [] Produce.undefResult false)
    (hinst : rec.inst = PureVal.undef) :
    ∀ k, (resolveTimes (fuel + 1) cid tok k st).calls = st.calls ++ List.replicate k tok ∧
      (resolve (fuel + 1) cid tok false (resolveTimes (fuel + 1) cid tok k st)).1 =
        Except.ok PureVal.undef := by
  intro k
  induction k generalizing st rec with
  | zero =>
    refine ⟨by simp [resolveTimes], ?_⟩
    rw [show resolveTimes (fuel + 1) cid tok 0 st = st from rfl,
      undef_singleton_step fuel cid tok st rec hrec hscope hfac hinst]
  | succ k ih =>
    have hstep := undef_singleton_step fuel cid tok st rec hrec hscope hfac hinst
    have hrt : resolveTimes (fuel + 1) cid tok (k + 1) st =
        resolveTimes (fuel + 1) cid tok k
          (setRecordInst { st with calls := st.calls ++ [tok] } tok PureVal.undef) := by
      rw [show resolveTimes (fuel + 1) cid tok (k + 1) st =
        resolveTimes (fuel + 1) cid tok k (resolve (fuel + 1) cid tok false st).2 from rfl,
        hstep]
    have hrec1 : getRecord
        (setRecordInst { st with calls := st.calls ++ [tok] } tok PureVal.undef) tok =
        some { rec with inst := PureVal.undef, isResolved := true } := by
      rw [getRecord_setRecordInst_self]
      rw [show getRecord { st with calls := st.calls ++ [tok] } tok = getRecord st tok from rfl,
        hrec]
      rfl
    have := ih (setRecordInst { st with calls := st.calls ++ [tok] } tok PureVal.undef)
      { rec with inst := PureVal.undef, isResolved := true } hrec1 hscope hfac rfl
    rw [hrt]
    refine ⟨?_, this.2⟩
    rw [this.1]
    rw [show (setRecordInst { st with calls := st.calls ++ [tok] } tok PureVal.undef).calls =
      st.calls ++ [tok] from rfl]
    simp [List.replicate_succ]

/-- C10 witness: a concrete singleton provider whose factory returns
`undefined`, resolved twice: the factory ran twice and the next resolution
still returns `undefined`. -/
theorem undefined_singleton_refetch_witness :
    (resolveTimes 10 0 "U" 2 (initialState
        [("U", factoryRecord Scope.singleton [] Produce.undefResult false)])).calls =
      (initialState
        [("U", factoryRecord Scope.singleton [] Produce.undefResult false)]).calls ++
        List.replicate 2 "U" ∧
    (resolve 10 0 "U" false (resolveTimes 10 0 "U" 2 (initialState
        [("U", factoryRecord Scope.singleton [] Produce.undefResult false)]))).1 =
      Except.ok PureVal.undef :=
  undefined_singleton_refetch 9 0 "U"
    (initialState [("U", factoryRecord Scope.singleton [] Produce.undefResult false)])
    (factoryRecord Scope.singleton [] Produce.undefResult false) rfl rfl rfl rfl 2

/-! ## C7: synchronous resolution of asynchronous providers -/

/-- C7 (amended): the synchronous `resolve` never returns an unawaited
pending value — a successful `resolve` means the internal resolution was
settled, and an internal promise makes `resolve` throw the generic
`ContainerError` naming the token. `resolveAsync` succeeds on chains whose
asynchrony passes only through class construction (`Promise.all` awaits
constructor arguments); but a factory provider resolves its `inject`
dependencies through the synchronous `container.resolve`, so an
asynchronous dependency there fails `resolveAsync` as well (see the
counterexample). -/
theorem sync_resolve_async_amended :
    (∀ fuel cid tok opt st v st1,
      resolve fuel cid tok opt st = (Except.ok v, st1) →
      ∃ rv, resolveInternal fuel cid [] tok opt st = (Except.ok rv, st1) ∧
        rv.isAsync = false ∧ rv.val = v) ∧
    (∀ fuel cid tok opt st rv st1,
      resolveInternal fuel cid [] tok opt st = (Except.ok rv, st1) → rv.isAsync = true →
      resolve fuel cid tok opt st = (Except.error (ContainerErr.syncAsync tok), st1)) ∧
    ((resolve 10 0 "C" false (initialState
        [("B", factoryRecord Scope.singleton [] Produce.fresh true),
         ("C", classRecord Scope.singleton [("B", false)])])).1 =
      Except.error (ContainerErr.syncAsync "C") ∧
     (resolveAsync 10 0 "C" false (initialState
        [("B", factoryRecord Scope.singleton [] Produce.fresh true),
         ("C", classRecord Scope.singleton [("B", false)])])).1 =
      Except.ok (PureVal.obj 1)) := by
  refine ⟨?_, ?_, ?_, ?_⟩
  · intro fuel cid tok opt st v st1 h
    rcases hi : resolveInternal fuel cid [] tok opt st with ⟨r, st2⟩
    simp only [resolve, hi] at h
    cases r with
    | ok rv =>
      simp only at h
      by_cases ha : rv.isAsync = true
      · rw [if_pos ha] at h
        exact absurd (congrArg Prod.fst h) (by simp)
      · rw [if_neg ha] at h
        injection h with h1 h2
        refine ⟨rv, by rw [h2], Bool.eq_false_iff.mpr (fun hh => ha hh), ?_⟩
        injection h1
    | error e =>
      simp only at h
      exact absurd (congrArg Prod.fst h) (by simp)
  · intro fuel cid tok opt st rv st1 h ha
    simp only [resolve, h]
    rw [if_pos ha]
  · simp [resolve, resolveInternal, resolveSingleton, resolveRequestScoped, resolveTransient,
      runFactory, instantiateClass, resolveDeps, resolveInjected, resolveSyncInside,
      getRecord, setRecordInst, getScoped, setScoped, applyProduce,
      Flareone.mapGet, Flareone.mapSet, initialState, factoryRecord, classRecord]
  · simp [resolveAsync, resolveInternal, resolveSingleton, resolveRequestScoped,
      resolveTransient, runFactory, instantiateClass, resolveDeps, resolveInjected,
      resolveSyncInside, getRecord, setRecordInst, getScoped, setScoped, applyProduce,
      Flareone.mapGet, Flareone.mapSet, initialState, factoryRecord, classRecord]

/-- C7 (counterexample): a factory provider `F` whose `inject` list holds
an asynchronous provider `A`: the synchronous `resolve` fails with the
generic `ContainerError` as the claim states, but `resolveAsync` fails
with the very same error instead of succeeding, because the factory
closure resolves its injected dependencies through the synchronous
`container.resolve`. -/
theorem sync_async_counterexample :
    (resolve 10 0 "F" false (initialState
        [("A", factoryRecord Scope.singleton [] Produce.fresh true),
         ("F", factoryRecord Scope.singleton ["A"] Produce.fresh false)])).1 =
      Except.error (ContainerErr.syncAsync "A") ∧
    (resolveAsync 10 0 "F" false (initialState
        [("A", factoryRecord Scope.singleton [] Produce.fresh true),
         ("F", factoryRecord Scope.singleton ["A"] Produce.fresh false)])).1 =
      Except.error (ContainerErr.syncAsync "A") := by
  constructor
  · simp [resolve, resolveInternal, resolveSingleton, resolveRequestScoped, resolveTransient,
      runFactory, instantiateClass, resolveDeps, resolveInjected, resolveSyncInside,
      getRecord, setRecordInst, getScoped, setScoped, applyProduce,
      Flareone.mapGet, Flareone.mapSet, initialState, factoryRecord, classRecord]
  · simp [resolveAsync, resolveInternal, resolveSingleton, resolveRequestScoped,
      resolveTransient, runFactory, instantiateClass, resolveDeps, resolveInjected,
      resolveSyncInside, getRecord, setRecordInst, getScoped, setScoped, applyProduce,
      Flareone.mapGet, Flareone.mapSet, initialState, factoryRecord, classRecord]

end Flareone.DI

namespace Flareone.Router

/-! ## C6: match precedence -/

/-- C6: at every level of `matchPath` a matching static child wins over any
parameter or wildcard child (first conjunct: a successful static branch
determines the result no matter what `paramChild` or `wildcardChild` hold);
a plain parameter child that succeeds wins over the wildcard child (second
conjunct: with no static child at the segment's first character, a
successful plain-parameter branch determines the result no matter what
`wildcardChild` holds); and concretely, with both `/users/:id` and
`/users/active` registered — in either registration order — matching
`/users/active` returns the static route's handler with an empty parameter
map, while `/users/bob` still falls through to the parameter route. -/
theorem route_precedence :
    (∀ (node : RadixNode) (seg : Seg) (rest : List Seg) (params : Params)
        (m : Method) (sc : RadixNode) (h : Nat) (p : Params),
      Flareone.mapGet node.children (firstCharOf seg) = some sc →
      sc.segment = seg →
      matchPath sc rest params m = (some h, p) →
      matchPath node (seg :: rest) params m = (some h, p)) ∧
    (∀ (node : RadixNode) (seg : Seg) (rest : List Seg) (params : Params)
        (m : Method) (pc : RadixNode) (h : Nat) (p : Params),
      Flareone.mapGet node.children (firstCharOf seg) = none →
      node.paramChild = some pc →
      pc.pattern = none →
      matchPath pc rest (Flareone.mapSet params pc.segment seg) m = (some h, p) →
      matchPath node (seg :: rest) params m = (some h, p)) ∧
    ((matchRoute
      (registerRoute (fun _ _ => false)
        (registerRoute (fun _ _ => false) emptyRouter Method.GET "/users/:id".toList 1)
        Method.GET "/users/active".toList 2)
      Method.GET "/users/active".toList = some (2, []) ∧
     matchRoute
      (registerRoute (fun _ _ => false)
        (registerRoute (fun _ _ => false) emptyRouter Method.GET "/users/active".toList 2)
        Method.GET "/users/:id".toList 1)
      Method.GET "/users/active".toList = some (2, [])) ∧
    (matchRoute
      (registerRoute (fun _ _ => false)
        (registerRoute (fun _ _ => false) emptyRouter Method.GET "/users/:id".toList 1)
        Method.GET "/users/active".toList 2)
      Method.GET "/users/bob".toList = some (1, [("id".toList, "bob".toList)]))) := by
  refine ⟨?_, ?_, ⟨by decide, by decide⟩, by decide⟩
  · intro node seg rest params m sc h p hget hseg hm
    have h1 : seg.isPrefixOf seg = true :=
      List.isPrefixOf_iff_prefix.mpr (List.prefix_refl _)
    have h2 : (seg == seg) = true := beq_self_eq_true seg
    simp only [matchPath, hget, hseg, h1, h2, if_true, hm]
  · intro node seg rest params m pc h p hget hpc hpat hm
    simp only [matchPath, hget, hpc, hpat, hm]

end Flareone.Router

namespace Flareone

theorem mapGet_mem {α β : Type} [BEq α] {m : List (α × β)} {k : α} {v : β}
    (h : mapGet m k = some v) : ∃ a, (a, v) ∈ m := by
  unfold mapGet at h
  cases hf : m.find? (fun p => p.1 == k) with
  | none => rw [hf] at h; exact Option.noConfusion h
  | some q =>
    rw [hf] at h
    have hv : q.2 = v := by simpa using h
    subst hv
    exact ⟨q.1, by simpa using List.mem_of_find?_eq_some hf⟩

end Flareone

namespace Flareone.Router

theorem noWildcardChildren_mem {children : List (Char × RadixNode)} {c : Char} {n : RadixNode}
    (h : noWildcardChildren children = true) (hm : (c, n) ∈ children) :
    noWildcardNode n = true := by
  induction children with
  | nil => cases hm
  | cons q rest ih =>
    cases q with
    | mk a b =>
      simp only [noWildcardChildren, Bool.and_eq_true] at h
      rcases List.mem_cons.mp hm with he | hm2
      · injection he with h1 h2
        rw [h2]
        exact h.1
      · exact ih h.2 hm2

theorem noWildcardNode_parts {n : RadixNode} (h : noWildcardNode n = true) :
    n.wildcardChild = none ∧ noWildcardOpt n.paramChild = true ∧
      noWildcardChildren n.children = true := by
  cases n with
  | node t s pat ch pc wc hs pr =>
    simp only [noWildcardNode, Bool.and_eq_true, RadixNode.wildcardChild,
      RadixNode.paramChild, RadixNode.children] at h ⊢
    exact ⟨Option.isNone_iff_eq_none.mp h.1.1, h.1.2, h.2⟩

theorem matchPath_fail_restores : ∀ (segs : List Seg) (node : RadixNode) (params : Params)
    (m : Method) (p : Params),
    noWildcardNode node = true → Flareone.keysNodup params →
    matchPath node segs params m = (none, p) → p = params := by
  intro segs
  induction segs with
  | nil =>
    intro node params m p hq hq2 h
    simp only [matchPath] at h
    exact ((Prod.mk.injEq _ _ _ _).mp h).2.symm
  | cons seg rest ih =>
    intro node params m p hnw hnd h
    obtain ⟨hwc, hpcOpt, hch⟩ := noWildcardNode_parts hnw
    simp only [matchPath, hwc] at h
    rcases hg : Flareone.mapGet node.children (firstCharOf seg) with _ | sc
    · simp only [hg] at h
      rcases hpc : node.paramChild with _ | pc
      · simp only [hpc] at h
        injection h with h1 h2
        exact h2.symm
      · have hpcN : noWildcardNode pc = true := by
          rw [hpc] at hpcOpt
          simpa [noWildcardOpt] using hpcOpt
        simp only [hpc] at h
        rcases hpat : pc.pattern with _ | pat
        · simp only [hpat] at h
          rcases hr1 : matchPath pc rest (Flareone.mapSet params pc.segment seg) m with ⟨_ | v1, q1⟩
          · simp only [hr1] at h
            have hq1 : q1 = Flareone.mapSet params pc.segment seg :=
              ih pc (Flareone.mapSet params pc.segment seg) m q1 hpcN
                (Flareone.keysNodup_mapSet params pc.segment seg hnd) hr1
            rcases hsv : Flareone.mapGet params pc.segment with _ | v0
            · simp only [hsv] at h
              injection h with h1 h2
              rw [← h2, hq1, Flareone.mapDelete_mapSet_of_none seg hsv]
            · simp only [hsv] at h
              injection h with h1 h2
              rw [← h2, hq1, Flareone.mapSet_mapSet_self, Flareone.mapSet_self_of_get hnd hsv]
          · simp only [hr1] at h
            simp at h
        · simp only [hpat] at h
          by_cases hps : pat seg = true
          · rw [if_pos hps] at h
            rcases hr1 : matchPath pc rest (Flareone.mapSet params pc.segment seg) m with ⟨_ | v1, q1⟩
            · simp only [hr1] at h
              have hq1 : q1 = Flareone.mapSet params pc.segment seg :=
                ih pc (Flareone.mapSet params pc.segment seg) m q1 hpcN
                  (Flareone.keysNodup_mapSet params pc.segment seg hnd) hr1
              rcases hsv : Flareone.mapGet params pc.segment with _ | v0
              · simp only [hsv] at h
                injection h with h1 h2
                rw [← h2, hq1, Flareone.mapDelete_mapSet_of_none seg hsv]
              · simp only [hsv] at h
                injection h with h1 h2
                rw [← h2, hq1, Flareone.mapSet_mapSet_self, Flareone.mapSet_self_of_get hnd hsv]
            · simp only [hr1] at h
              simp at h
          · rw [if_neg hps] at h
            injection h with h1 h2
            exact h2.symm
    · have hsc : noWildcardNode sc = true := by
        obtain ⟨c0, hmem⟩ := Flareone.mapGet_mem hg
        exact noWildcardChildren_mem hch hmem
      simp only [hg] at h
      by_cases hpre : List.isPrefixOf sc.segment seg = true
      · rw [if_pos hpre] at h
        by_cases heq : (sc.segment == seg) = true
        · rw [if_pos heq] at h
          rcases hr : matchPath sc rest params m with ⟨_ | v, p0⟩
          · simp only [hr] at h
            have hp0 : p0 = params := ih sc params m p0 hsc hnd hr
            rw [hp0] at h
            rcases hpc : node.paramChild with _ | pc
            · simp only [hpc] at h
              injection h with h1 h2
              exact h2.symm
            · have hpcN : noWildcardNode pc = true := by
                rw [hpc] at hpcOpt
                simpa [noWildcardOpt] using hpcOpt
              simp only [hpc] at h
              rcases hpat : pc.pattern with _ | pat
              · simp only [hpat] at h
                rcases hr1 : matchPath pc rest (Flareone.mapSet params pc.segment seg) m with ⟨_ | v1, q1⟩
                · simp only [hr1] at h
                  have hq1 : q1 = Flareone.mapSet params pc.segment seg :=
                    ih pc (Flareone.mapSet params pc.segment seg) m q1 hpcN
                      (Flareone.keysNodup_mapSet params pc.segment seg hnd) hr1
                  rcases hsv : Flareone.mapGet params pc.segment with _ | v0
                  · simp only [hsv] at h
                    injection h with h1 h2
                    rw [← h2, hq1, Flareone.mapDelete_mapSet_of_none seg hsv]
                  · simp only [hsv] at h
                    injection h with h1 h2
                    rw [← h2, hq1, Flareone.mapSet_mapSet_self, Flareone.mapSet_self_of_get hnd hsv]
                · simp only [hr1] at h
                  simp at h
              · simp only [hpat] at h
                by_cases hps : pat seg = true
                · rw [if_pos hps] at h
                  rcases hr1 : matchPath pc rest (Flareone.mapSet params pc.segment seg) m with ⟨_ | v1, q1⟩
                  · simp only [hr1] at h
                    have hq1 : q1 = Flareone.mapSet params pc.segment seg :=
                      ih pc (Flareone.mapSet params pc.segment seg) m q1 hpcN
                        (Flareone.keysNodup_mapSet params pc.segment seg hnd) hr1
                    rcases hsv : Flareone.mapGet params pc.segment with _ | v0
                    · simp only [hsv] at h
                      injection h with h1 h2
                      rw [← h2, hq1, Flareone.mapDelete_mapSet_of_none seg hsv]
                    · simp only [hsv] at h
                      injection h with h1 h2
                      rw [← h2, hq1, Flareone.mapSet_mapSet_self, Flareone.mapSet_self_of_get hnd hsv]
                  · simp only [hr1] at h
                    simp at h
                · rw [if_neg hps] at h
                  injection h with h1 h2
                  exact h2.symm
          · simp only [hr] at h
            simp at h
        · rw [if_neg heq] at h
          obtain ⟨hx1, hx2, hch2⟩ := noWildcardNode_parts hsc
          rcases hg2 : Flareone.mapGet sc.children
              (firstCharOf (List.drop sc.segment.length seg)) with _ | nc
          · simp only [hg2] at h
            rcases hpc : node.paramChild with _ | pc
            · simp only [hpc] at h
              injection h with h1 h2
              exact h2.symm
            · have hpcN : noWildcardNode pc = true := by
                rw [hpc] at hpcOpt
                simpa [noWildcardOpt] using hpcOpt
              simp only [hpc] at h
              rcases hpat : pc.pattern with _ | pat
              · simp only [hpat] at h
                rcases hr1 : matchPath pc rest (Flareone.mapSet params pc.segment seg) m with ⟨_ | v1, q1⟩
                · simp only [hr1] at h
                  have hq1 : q1 = Flareone.mapSet params pc.segment seg :=
                    ih pc (Flareone.mapSet params pc.segment seg) m q1 hpcN
                      (Flareone.keysNodup_mapSet params pc.segment seg hnd) hr1
                  rcases hsv : Flareone.mapGet params pc.segment with _ | v0
                  · simp only [hsv] at h
                    injection h with h1 h2
                    rw [← h2, hq1, Flareone.mapDelete_mapSet_of_none seg hsv]
                  · simp only [hsv] at h
                    injection h with h1 h2
                    rw [← h2, hq1, Flareone.mapSet_mapSet_self, Flareone.mapSet_self_of_get hnd hsv]
                · simp only [hr1] at h
                  simp at h
              · simp only [hpat] at h
                by_cases hps : pat seg = true
                · rw [if_pos hps] at h
                  rcases hr1 : matchPath pc rest (Flareone.mapSet params pc.segment seg) m with ⟨_ | v1, q1⟩
                  · simp only [hr1] at h
                    have hq1 : q1 = Flareone.mapSet params pc.segment seg :=
                      ih pc (Flareone.mapSet params pc.segment seg) m q1 hpcN
                        (Flareone.keysNodup_mapSet params pc.segment seg hnd) hr1
                    rcases hsv : Flareone.mapGet params pc.segment with _ | v0
                    · simp only [hsv] at h
                      injection h with h1 h2
                      rw [← h2, hq1, Flareone.mapDelete_mapSet_of_none seg hsv]
                    · simp only [hsv] at h
                      injection h with h1 h2
                      rw [← h2, hq1, Flareone.mapSet_mapSet_self, Flareone.mapSet_self_of_get hnd hsv]
                  · simp only [hr1] at h
                    simp at h
                · rw [if_neg hps] at h
                  injection h with h1 h2
                  exact h2.symm
          · have hnc : noWildcardNode nc = true := by
              obtain ⟨c1, hmem2⟩ := Flareone.mapGet_mem hg2
              exact noWildcardChildren_mem hch2 hmem2
            simp only [hg2] at h
            by_cases heq2 : (List.drop sc.segment.length seg == nc.segment) = true
            · rw [if_pos heq2] at h
              rcases hr : matchPath nc rest params m with ⟨_ | v, p0⟩
              · simp only [hr] at h
                have hp0 : p0 = params := ih nc params m p0 hnc hnd hr
                rw [hp0] at h
                rcases hpc : node.paramChild with _ | pc
                · simp only [hpc] at h
                  injection h with h1 h2
                  exact h2.symm
                · have hpcN : noWildcardNode pc = true := by
                    rw [hpc] at hpcOpt
                    simpa [noWildcardOpt] using hpcOpt
                  simp only [hpc] at h
                  rcases hpat : pc.pattern with _ | pat
                  · simp only [hpat] at h
                    rcases hr1 : matchPath pc rest (Flareone.mapSet params pc.segment seg) m with ⟨_ | v1, q1⟩
                    · simp only [hr1] at h
                      have hq1 : q1 = Flareone.mapSet params pc.segment seg :=
                        ih pc (Flareone.mapSet params pc.segment seg) m q1 hpcN
                          (Flareone.keysNodup_mapSet params pc.segment seg hnd) hr1
                      rcases hsv : Flareone.mapGet params pc.segment with _ | v0
                      · simp only [hsv] at h
                        injection h with h1 h2
                        rw [← h2, hq1, Flareone.mapDelete_mapSet_of_none seg hsv]
                      · simp only [hsv] at h
                        injection h with h1 h2
                        rw [← h2, hq1, Flareone.mapSet_mapSet_self, Flareone.mapSet_self_of_get hnd hsv]
                    · simp only [hr1] at h
                      simp at h
                  · simp only [hpat] at h
                    by_cases hps : pat seg = true
                    · rw [if_pos hps] at h
                      rcases hr1 : matchPath pc rest (Flareone.mapSet params pc.segment seg) m with ⟨_ | v1, q1⟩
                      · simp only [hr1] at h
                        have hq1 : q1 = Flareone.mapSet params pc.segment seg :=
                          ih pc (Flareone.mapSet params pc.segment seg) m q1 hpcN
                            (Flareone.keysNodup_mapSet params pc.segment seg hnd) hr1
                        rcases hsv : Flareone.mapGet params pc.segment with _ | v0
                        · simp only [hsv] at h
                          injection h with h1 h2
                          rw [← h2, hq1, Flareone.mapDelete_mapSet_of_none seg hsv]
                        · simp only [hsv] at h
                          injection h with h1 h2
                          rw [← h2, hq1, Flareone.mapSet_mapSet_self, Flareone.mapSet_self_of_get hnd hsv]
                      · simp only [hr1] at h
                        simp at h
                    · rw [if_neg hps] at h
                      injection h with h1 h2
                      exact h2.symm
              · simp only [hr] at h
                simp at h
            · rw [if_neg heq2] at h
              simp only [] at h
              rcases hpc : node.paramChild with _ | pc
              · simp only [hpc] at h
                injection h with h1 h2
                exact h2.symm
              · have hpcN : noWildcardNode pc = true := by
                  rw [hpc] at hpcOpt
                  simpa [noWildcardOpt] using hpcOpt
                simp only [hpc] at h
                rcases hpat : pc.pattern with _ | pat
                · simp only [hpat] at h
                  rcases hr1 : matchPath pc rest (Flareone.mapSet params pc.segment seg) m with ⟨_ | v1, q1⟩
                  · simp only [hr1] at h
                    have hq1 : q1 = Flareone.mapSet params pc.segment seg :=
                      ih pc (Flareone.mapSet params pc.segment seg) m q1 hpcN
                        (Flareone.keysNodup_mapSet params pc.segment seg hnd) hr1
                    rcases hsv : Flareone.mapGet params pc.segment with _ | v0
                    · simp only [hsv] at h
                      injection h with h1 h2
                      rw [← h2, hq1, Flareone.mapDelete_mapSet_of_none seg hsv]
                    · simp only [hsv] at h
                      injection h with h1 h2
                      rw [← h2, hq1, Flareone.mapSet_mapSet_self, Flareone.mapSet_self_of_get hnd hsv]
                  · simp only [hr1] at h
                    simp at h
                · simp only [hpat] at h
                  by_cases hps : pat seg = true
                  · rw [if_pos hps] at h
                    rcases hr1 : matchPath pc rest (Flareone.mapSet params pc.segment seg) m with ⟨_ | v1, q1⟩
                    · simp only [hr1] at h
                      have hq1 : q1 = Flareone.mapSet params pc.segment seg :=
                        ih pc (Flareone.mapSet params pc.segment seg) m q1 hpcN
                          (Flareone.keysNodup_mapSet params pc.segment seg hnd) hr1
                      rcases hsv : Flareone.mapGet params pc.segment with _ | v0
                      · simp only [hsv] at h
                        injection h with h1 h2
                        rw [← h2, hq1, Flareone.mapDelete_mapSet_of_none seg hsv]
                      · simp only [hsv] at h
                        injection h with h1 h2
                        rw [← h2, hq1, Flareone.mapSet_mapSet_self, Flareone.mapSet_self_of_get hnd hsv]
                    · simp only [hr1] at h
                      simp at h
                  · rw [if_neg hps] at h
                    injection h with h1 h2
                    exact h2.symm
      · rw [if_neg hpre] at h
        simp only [] at h
        rcases hpc : node.paramChild with _ | pc
        · simp only [hpc] at h
          injection h with h1 h2
          exact h2.symm
        · have hpcN : noWildcardNode pc = true := by
            rw [hpc] at hpcOpt
            simpa [noWildcardOpt] using hpcOpt
          simp only [hpc] at h
          rcases hpat : pc.pattern with _ | pat
          · simp only [hpat] at h
            rcases hr1 : matchPath pc rest (Flareone.mapSet params pc.segment seg) m with ⟨_ | v1, q1⟩
            · simp only [hr1] at h
              have hq1 : q1 = Flareone.mapSet params pc.segment seg :=
                ih pc (Flareone.mapSet params pc.segment seg) m q1 hpcN
                  (Flareone.keysNodup_mapSet params pc.segment seg hnd) hr1
              rcases hsv : Flareone.mapGet params pc.segment with _ | v0
              · simp only [hsv] at h
                injection h with h1 h2
                rw [← h2, hq1, Flareone.mapDelete_mapSet_of_none seg hsv]
              · simp only [hsv] at h
                injection h with h1 h2
                rw [← h2, hq1, Flareone.mapSet_mapSet_self, Flareone.mapSet_self_of_get hnd hsv]
            · simp only [hr1] at h
              simp at h
          · simp only [hpat] at h
            by_cases hps : pat seg = true
            · rw [if_pos hps] at h
              rcases hr1 : matchPath pc rest (Flareone.mapSet params pc.segment seg) m with ⟨_ | v1, q1⟩
              · simp only [hr1] at h
                have hq1 : q1 = Flareone.mapSet params pc.segment seg :=
                  ih pc (Flareone.mapSet params pc.segment seg) m q1 hpcN
                    (Flareone.keysNodup_mapSet params pc.segment seg hnd) hr1
                rcases hsv : Flareone.mapGet params pc.segment with _ | v0
                · simp only [hsv] at h
                  injection h with h1 h2
                  rw [← h2, hq1, Flareone.mapDelete_mapSet_of_none seg hsv]
                · simp only [hsv] at h
                  injection h with h1 h2
                  rw [← h2, hq1, Flareone.mapSet_mapSet_self, Flareone.mapSet_self_of_get hnd hsv]
              · simp only [hr1] at h
                simp at h
            · rw [if_neg hps] at h
              injection h with h1 h2
              exact h2.symm

end Flareone.Router

namespace Flareone.Router

/-- C5: backtracking in `matchPath` restores abandoned bindings — in every
wildcard-free subtree. First conjunct: in a subtree with no wildcard child
anywhere, a failed match hands back the parameter map exactly as it
received it (a tentative parameter binding of an abandoned branch is
rolled back to the prior value, or deleted when none existed), so a later
sibling branch starts from a clean map. Second conjunct, concretely: with
`/:q/c` and `/*w` registered, matching `/e/f` abandons the parameter
branch (binding `q := e`), the binding is removed, and the successful
wildcard match returns only `w := e/f`. The wildcard branch itself,
however, does not satisfy the claim — see the counterexample. -/
theorem backtrack_restore :
    (∀ (segs : List Seg) (node : RadixNode) (params : Params) (m : Method) (p : Params),
      noWildcardNode node = true → Flareone.keysNodup params →
      matchPath node segs params m = (none, p) → p = params) ∧
    matchRoute
      (registerRoute (fun _ _ => false)
        (registerRoute (fun _ _ => false) emptyRouter Method.GET "/:q/c".toList 1)
        Method.GET "/*w".toList 2)
      Method.GET "/e/f".toList =
      some (2, [("w".toList, ('e' :: '/' :: 'f' :: []))]) :=
  ⟨fun segs node params m p h1 h2 h3 =>
    matchPath_fail_restores segs node params m p h1 h2 h3, by decide⟩

/-- C5 counterexample: the wildcard branch of `matchPath` returns without
removing its binding when the wildcard node has no handler for the method.
With `/a/*w` registered for GET and `/:p/b` for POST, matching POST `/a/b`
succeeds with the POST route's handler, but the returned parameter map
still carries `w := b` leaked from the abandoned GET-wildcard branch —
not only the matched route's binding `p := a`. -/
theorem backtrack_restore_counterexample :
    matchRoute
      (registerRoute (fun _ _ => false)
        (registerRoute (fun _ _ => false) emptyRouter Method.GET "/a/*w".toList 1)
        Method.POST "/:p/b".toList 2)
      Method.POST "/a/b".toList =
      some (2, [("w".toList, "b".toList), ("p".toList, "a".toList)]) := by
  decide

end Flareone.Router

namespace Flareone.Router

theorem withChild_fields (n : RadixNode) (c : Char) (child : RadixNode) :
    (n.withChild c child).children = Flareone.mapSet n.children c child ∧
    (n.withChild c child).paramChild = n.paramChild ∧
    (n.withChild c child).wildcardChild = n.wildcardChild ∧
    (n.withChild c child).handlers = n.handlers ∧
    (n.withChild c child).segment = n.segment ∧
    (n.withChild c child).pattern = n.pattern := by
  cases n
  exact ⟨rfl, rfl, rfl, rfl, rfl, rfl⟩

theorem withParam_fields (n : RadixNode) (pc : RadixNode) :
    (n.withParam pc).children = n.children ∧
    (n.withParam pc).paramChild = some pc ∧
    (n.withParam pc).wildcardChild = n.wildcardChild ∧
    (n.withParam pc).handlers = n.handlers ∧
    (n.withParam pc).segment = n.segment ∧
    (n.withParam pc).pattern = n.pattern := by
  cases n
  exact ⟨rfl, rfl, rfl, rfl, rfl, rfl⟩

theorem withWildcard_fields (n : RadixNode) (wc : RadixNode) :
    (n.withWildcard wc).children = n.children ∧
    (n.withWildcard wc).paramChild = n.paramChild ∧
    (n.withWildcard wc).wildcardChild = some wc ∧
    (n.withWildcard wc).handlers = n.handlers ∧
    (n.withWildcard wc).segment = n.segment ∧
    (n.withWildcard wc).pattern = n.pattern := by
  cases n
  exact ⟨rfl, rfl, rfl, rfl, rfl, rfl⟩

theorem withHandler_fields (n : RadixNode) (m : Method) (h : Nat) :
    (n.withHandler m h).children = n.children ∧
    (n.withHandler m h).paramChild = n.paramChild ∧
    (n.withHandler m h).wildcardChild = n.wildcardChild ∧
    (n.withHandler m h).handlers = Flareone.mapSet n.handlers m h ∧
    (n.withHandler m h).segment = n.segment ∧
    (n.withHandler m h).pattern = n.pattern := by
  cases n
  exact ⟨rfl, rfl, rfl, rfl, rfl, rfl⟩

theorem getHandlerOf_withHandler (n : RadixNode) (m : Method) (h : Nat) :
    getHandlerOf (n.withHandler m h) m = some h := by
  rw [getHandlerOf, (withHandler_fields n m h).2.2.2.1, Flareone.mapGet_mapSet_self]

theorem parseSegment_static (cmp : Seg → Seg → Bool) {s : Seg} (hs : s ≠ [])
    (h1 : firstCharOf s ≠ ':') (h2 : firstCharOf s ≠ '*') :
    parseSegment cmp s = ⟨NodeType.static, s, none⟩ := by
  cases s with
  | nil => exact absurd rfl hs
  | cons c cs =>
    simp only [firstCharOf] at h1 h2
    simp only [parseSegment]
    split
    · next rest heq =>
      injection heq with hc _
      exact absurd hc h2
    · next rest heq =>
      injection heq with hc _
      exact absurd hc h1
    · rfl

theorem parseSegment_param (cmp : Seg → Seg → Bool) {name : Seg} (hn : name ≠ [])
    (hp : '(' ∉ name) :
    parseSegment cmp (':' :: name) = ⟨NodeType.param, name, none⟩ := by
  have hall : ∀ x ∈ name, (!(x == '(')) = true := by
    intro x hx
    simp only [Bool.not_eq_true', beq_eq_false_iff_ne]
    exact fun hh => hp (hh ▸ hx)
  have ht : name.takeWhile (fun c => !(c == '(')) = name :=
    List.takeWhile_eq_self_iff.mpr hall
  have hd : name.dropWhile (fun c => !(c == '(')) = [] :=
    List.dropWhile_eq_nil_iff.mpr hall
  have hne : name.isEmpty = false := by
    cases name with
    | nil => exact absurd rfl hn
    | cons a as => rfl
  simp only [parseSegment, ht, hd, hne, List.isEmpty_nil, if_true, Bool.false_eq_true,
    if_false]

theorem parseSegment_wildcard (cmp : Seg → Seg → Bool) {name : Seg} (hn : name ≠ []) :
    parseSegment cmp ('*' :: name) = ⟨NodeType.wildcard, name, none⟩ := by
  have hne : name.isEmpty = false := by
    cases name with
    | nil => exact absurd rfl hn
    | cons a as => rfl
  simp only [parseSegment, hne, Bool.false_eq_true, if_false]

end Flareone.Router

namespace Flareone.Router

theorem insertPath_root_fields (cmp : Seg → Seg → Bool) :
    ∀ (segs : List Seg) (n : RadixNode) (m : Method) (h : Nat),
    (insertPath cmp n segs m h).segment = n.segment ∧
    (insertPath cmp n segs m h).pattern = n.pattern := by
  intro segs n m h
  cases segs with
  | nil =>
    exact ⟨(withHandler_fields n m h).2.2.2.2.1, (withHandler_fields n m h).2.2.2.2.2⟩
  | cons s rest =>
    simp only [insertPath]
    (repeat' split) <;>
      first
        | exact ⟨(withChild_fields _ _ _).2.2.2.2.1, (withChild_fields _ _ _).2.2.2.2.2⟩
        | exact ⟨(withParam_fields _ _).2.2.2.2.1, (withParam_fields _ _).2.2.2.2.2⟩
        | exact ⟨(withWildcard_fields _ _).2.2.2.2.1, (withWildcard_fields _ _).2.2.2.2.2⟩

theorem insert_match_roundtrip_aux :
    ∀ (route : List ISeg) (cmp : Seg → Seg → Bool) (node : RadixNode)
      (m : Method) (h : Nat) (params : Params),
      validRoute route → bareNode node →
      (∀ nm ∈ bindingNames route, Flareone.mapGet params nm = none) →
      matchPath (insertPath cmp node (templateSegs route) m h) (requestSegs route) params m
        = (some h, params ++ routeBindings route) := by
  intro route
  induction route with
  | nil =>
    intro cmp node m h params hv hb hf
    simp only [templateSegs, List.map_nil, insertPath, requestSegs, routeBindings,
      List.append_nil, matchPath]
    rw [getHandlerOf_withHandler]
  | cons iseg rest ih =>
    intro cmp node m h params hv hb hf
    obtain ⟨hbc, hbp, hbw⟩ := hb
    cases iseg with
    | staticSeg s =>
      obtain ⟨hs0, hs1, hs2⟩ := hv.1 (ISeg.staticSeg s) (List.mem_cons_self _ _)
      have hv' : validRoute rest := ⟨fun x hx => hv.1 x (List.mem_cons_of_mem _ hx),
        by simpa [bindingNames] using hv.2.1, by simpa [wildcardOnlyLast] using hv.2.2⟩
      have hf' : ∀ nm ∈ bindingNames rest, Flareone.mapGet params nm = none := by
        intro nm hnm
        exact hf nm (by simpa [bindingNames] using hnm)
      have hkey := ih cmp (createNode NodeType.static s none) m h params hv' ⟨rfl, rfl, rfl⟩ hf'
      simp only [templateSegs, List.map_cons, ISeg.template, insertPath,
        parseSegment_static cmp hs0 hs1 hs2, hbc, Flareone.mapGet_nil]
      have hget : Flareone.mapGet
          (node.withChild (firstCharOf s)
            (insertPath cmp (createNode NodeType.static s none) (List.map ISeg.template rest) m h)).children
          (firstCharOf s)
          = some (insertPath cmp (createNode NodeType.static s none) (List.map ISeg.template rest) m h) := by
        rw [(withChild_fields node _ _).1, hbc, Flareone.mapGet_mapSet_self]
      have hseg : (insertPath cmp (createNode NodeType.static s none) (List.map ISeg.template rest) m h).segment = s := by
        rw [(insertPath_root_fields cmp (List.map ISeg.template rest) (createNode NodeType.static s none) m h).1]
        rfl
      have hpre : List.isPrefixOf s s = true :=
        List.isPrefixOf_iff_prefix.mpr (List.prefix_refl s)
      have hbeq : (s == s) = true := beq_self_eq_true s
      simp only [requestSegs, routeBindings, matchPath, hget, hseg, hpre, hbeq, if_true]
      simp only [templateSegs] at hkey
      simp only [hkey]
    | paramSeg name value =>
      obtain ⟨hn0, hn1⟩ := hv.1 (ISeg.paramSeg name value) (List.mem_cons_self _ _)
      have hnodup := hv.2.1
      simp only [bindingNames, List.nodup_cons] at hnodup
      have hv' : validRoute rest := ⟨fun x hx => hv.1 x (List.mem_cons_of_mem _ hx),
        hnodup.2, by simpa [wildcardOnlyLast] using hv.2.2⟩
      have hfname : Flareone.mapGet params name = none :=
        hf name (by simp [bindingNames])
      have hf' : ∀ nm ∈ bindingNames rest,
          Flareone.mapGet (Flareone.mapSet params name value) nm = none := by
        intro nm hnm
        have hne : ¬ nm = name := fun hh => hnodup.1 (hh ▸ hnm)
        rw [Flareone.mapGet_mapSet_ne params value hne]
        exact hf nm (by simp [bindingNames, hnm])
      have hkey := ih cmp (createNode NodeType.param name none) m h
        (Flareone.mapSet params name value) hv' ⟨rfl, rfl, rfl⟩ hf'
      simp only [templateSegs, List.map_cons, ISeg.template, insertPath,
        parseSegment_param cmp hn0 hn1, hbp]
      have hch : (node.withParam
          (insertPath cmp (createNode NodeType.param name none) (List.map ISeg.template rest) m h)).children
          = ([] : List (Char × RadixNode)) := by
        rw [(withParam_fields node _).1, hbc]
      have hpc : (node.withParam
          (insertPath cmp (createNode NodeType.param name none) (List.map ISeg.template rest) m h)).paramChild
          = some (insertPath cmp (createNode NodeType.param name none) (List.map ISeg.template rest) m h) :=
        (withParam_fields node _).2.1
      have hpat : (insertPath cmp (createNode NodeType.param name none) (List.map ISeg.template rest) m h).pattern = none := by
        rw [(insertPath_root_fields cmp (List.map ISeg.template rest) (createNode NodeType.param name none) m h).2]
        rfl
      have hseg : (insertPath cmp (createNode NodeType.param name none) (List.map ISeg.template rest) m h).segment = name := by
        rw [(insertPath_root_fields cmp (List.map ISeg.template rest) (createNode NodeType.param name none) m h).1]
        rfl
      simp only [requestSegs, routeBindings, matchPath, hch, hpc, hpat, hseg,
        Flareone.mapGet_nil]
      simp only [templateSegs] at hkey
      simp only [hkey]
      simp [Flareone.mapSet_of_get_none value hfname]
    | wildcardSeg name values =>
      obtain ⟨hn0, hval0⟩ := hv.1 (ISeg.wildcardSeg name values) (List.mem_cons_self _ _)
      have hrest : rest = [] := by simpa [wildcardOnlyLast] using hv.2.2
      subst hrest
      have hfname : Flareone.mapGet params name = none :=
        hf name (by simp [bindingNames])
      simp only [templateSegs, List.map_cons, List.map_nil, ISeg.template, insertPath,
        parseSegment_wildcard cmp hn0, hbw]
      cases values with
      | nil => exact absurd rfl hval0
      | cons v vs =>
        have hch : (node.withWildcard
            ((createNode NodeType.wildcard name none).withHandler m h)).children
            = ([] : List (Char × RadixNode)) := by
          rw [(withWildcard_fields node _).1, hbc]
        have hpc : (node.withWildcard
            ((createNode NodeType.wildcard name none).withHandler m h)).paramChild = none := by
          rw [(withWildcard_fields node _).2.1, hbp]
        have hwcf : (node.withWildcard
            ((createNode NodeType.wildcard name none).withHandler m h)).wildcardChild
            = some ((createNode NodeType.wildcard name none).withHandler m h) :=
          (withWildcard_fields node _).2.2.1
        have hseg : ((createNode NodeType.wildcard name none).withHandler m h).segment = name :=
          (withHandler_fields (createNode NodeType.wildcard name none) m h).2.2.2.2.1
        simp only [requestSegs, routeBindings, List.append_nil, matchPath, hch, hpc, hwcf,
          hseg, Flareone.mapGet_nil, getHandlerOf_withHandler,
          Flareone.mapSet_of_get_none _ hfname]
        simp

end Flareone.Router
namespace Flareone.Router

/-- C2 (amended): the register/match round-trip holds for every single
well-formed route: inserting the template segments of a valid
static/param/wildcard route into a bare node and matching the
corresponding request segments returns exactly the registered handler with
exactly the route's bindings — empty for a purely static route, the
literal occupying segment for each parameter, the joined remainder for a
wildcard (first conjunct). It also survives a single static-node split
(second conjunct: `/tea` then `/te`) and holds at the full
`Router.register` / `Router.match` level for a wildcard route (third
conjunct). It does NOT extend to arbitrary sets of non-conflicting
routes: chained static splits break it (see the counterexample). -/
theorem router_roundtrip_amended :
    (∀ (route : List ISeg) (cmp : Seg → Seg → Bool) (node : RadixNode) (m : Method) (h : Nat),
      validRoute route → bareNode node →
      matchPath (insertPath cmp node (templateSegs route) m h) (requestSegs route) [] m
        = (some h, routeBindings route)) ∧
    (matchRoute
      (registerRoute (fun _ _ => false)
        (registerRoute (fun _ _ => false) emptyRouter Method.GET "/tea".toList 1)
        Method.GET "/te".toList 2)
      Method.GET "/tea".toList = some (1, []) ∧
     matchRoute
      (registerRoute (fun _ _ => false)
        (registerRoute (fun _ _ => false) emptyRouter Method.GET "/tea".toList 1)
        Method.GET "/te".toList 2)
      Method.GET "/te".toList = some (2, [])) ∧
    matchRoute
      (registerRoute (fun _ _ => false) emptyRouter Method.GET "/files/*path".toList 1)
      Method.GET "/files/a/b/c".toList =
      some (1, [("path".toList, "a/b/c".toList)]) := by
  refine ⟨?_, ⟨by decide, by decide⟩, by decide⟩
  intro route cmp node m h hv hb
  have := insert_match_roundtrip_aux route cmp node m h [] hv hb
    (fun nm _ => Flareone.mapGet_nil nm)
  simpa using this

/-- C2 counterexample: registering `/t` (handler 1), `/te` (handler 2),
`/tea` (handler 3) in that order — the chained static splits of the
claim's own example — leaves the router unable to match `/tea` at all,
and matching `/te` returns handler 3 instead of handler 2: the
non-recursive third case of `splitOrExtendNode` descends into the
existing grandchild without splitting it, attaching handler 3 to the
`/te` node and losing the `a` suffix. -/
theorem router_roundtrip_counterexample :
    matchRoute
      (registerRoute (fun _ _ => false)
        (registerRoute (fun _ _ => false)
          (registerRoute (fun _ _ => false) emptyRouter Method.GET "/t".toList 1)
          Method.GET "/te".toList 2)
        Method.GET "/tea".toList 3)
      Method.GET "/tea".toList = none ∧
    matchRoute
      (registerRoute (fun _ _ => false)
        (registerRoute (fun _ _ => false)
          (registerRoute (fun _ _ => false) emptyRouter Method.GET "/t".toList 1)
          Method.GET "/te".toList 2)
        Method.GET "/tea".toList 3)
      Method.GET "/te".toList = some (3, []) := by
  exact ⟨by decide, by decide⟩

end Flareone.Router

namespace Flareone.DI

/-- A transient provider that depends on its own token never terminates:
`resolveTransient` does not push the token onto the resolution stack, so
the circular check never fires and the resolution recurses forever (for
every fuel the embedding reports exhaustion, never a circular error). -/
theorem transient_self_noFuel : ∀ (fuel cid : Nat) (st : ContainerState),
    getRecord st "T" = some (classRecord Scope.transient [("T", false)]) →
    (resolveInternal fuel cid [] "T" false st).1 = Except.error ContainerErr.noFuel := by
  intro fuel
  induction fuel with
  | zero => intro cid st _; simp only [resolveInternal]
  | succ fuel ih =>
    intro cid st hrec
    have hrec0 : getRecord { st with calls := st.calls ++ ["T"] } "T" =
        some (classRecord Scope.transient [("T", false)]) := hrec
    rcases hri : resolveInternal fuel cid [] "T" false { st with calls := st.calls ++ ["T"] }
      with ⟨r, st1⟩
    have hr1 : r = Except.error ContainerErr.noFuel := by
      have hx := ih cid { st with calls := st.calls ++ ["T"] } hrec0
      rw [hri] at hx
      exact hx
    subst hr1
    have hcont : ([] : List String).contains "T" = false := rfl
    simp only [resolveInternal, hcont, Bool.false_eq_true, if_false, hrec, classRecord,
      resolveTransient, runFactory, instantiateClass, resolveDeps, hri]

/-- C3 (amended): a token already on the active resolution stack fails with
`CircularDependencyError` carrying `[...stack, token]` (first conjunct), and
the error message renders that path with ` -> ` between the human-readable
token names (second conjunct); concretely, two singleton class providers
depending on each other fail with the full cycle path `A -> B -> A` (third
conjunct). Cycles passing through transient providers do NOT behave this
way — the transient resolution never pushes the stack (see the
counterexample). -/
theorem circular_dependency_amended :
    (∀ (fuel cid : Nat) (stack : List String) (tok : String) (opt : Bool)
        (st : ContainerState),
      stack.contains tok = true →
      resolveInternal (fuel + 1) cid stack tok opt st =
        (Except.error (ContainerErr.circular (stack ++ [tok])), st)) ∧
    (∀ p : List String, (ContainerErr.circular p).message =
      "Circular dependency detected: " ++ String.intercalate " -> " p) ∧
    ((resolve 10 0 "A" false (initialState
        [("A", classRecord Scope.singleton [("B", false)]),
         ("B", classRecord Scope.singleton [("A", false)])])).1 =
      Except.error (ContainerErr.circular ["A", "B", "A"]) ∧
     (ContainerErr.circular ["A", "B", "A"]).message =
      "Circular dependency detected: A -> B -> A") := by
  refine ⟨?_, fun p => rfl, ?_, rfl⟩
  · intro fuel cid stack tok opt st h
    have hmem : tok ∈ stack := by simpa using h
    simp [resolveInternal, h]
    intro hc
    exact absurd hmem hc
  · simp [resolve, resolveInternal, resolveSingleton, resolveRequestScoped, resolveTransient,
      runFactory, instantiateClass, resolveDeps, resolveInjected, resolveSyncInside,
      getRecord, setRecordInst, getScoped, setScoped, applyProduce,
      Flareone.mapGet, Flareone.mapSet, initialState, classRecord]

/-- C3 counterexample: a transient provider depending on its own token
diverges for every fuel instead of failing with the circular error (the
transient path never pushes the resolution stack), and a singleton-through-
transient cycle `A -> T -> A` reports the cycle path as `["A", "A"]` —
the transient token `T` is omitted, so the rendered path is not the full
cycle in traversal order. -/
theorem circular_dependency_counterexample :
    (∀ fuel : Nat, (resolve fuel 0 "T" false (initialState
        [("T", classRecord Scope.transient [("T", false)])])).1 =
      Except.error ContainerErr.noFuel) ∧
    (resolve 10 0 "A" false (initialState
        [("A", classRecord Scope.singleton [("T", false)]),
         ("T", classRecord Scope.transient [("A", false)])])).1 =
      Except.error (ContainerErr.circular ["A", "A"]) := by
  constructor
  · intro fuel
    rcases hri : resolveInternal fuel 0 [] "T" false (initialState
        [("T", classRecord Scope.transient [("T", false)])]) with ⟨r, st1⟩
    have hr := transient_self_noFuel fuel 0 (initialState
        [("T", classRecord Scope.transient [("T", false)])]) rfl
    rw [hri] at hr
    subst hr
    simp only [resolve, hri]
  · simp [resolve, resolveInternal, resolveSingleton, resolveRequestScoped, resolveTransient,
      runFactory, instantiateClass, resolveDeps, resolveInjected, resolveSyncInside,
      getRecord, setRecordInst, getScoped, setScoped, applyProduce,
      Flareone.mapGet, Flareone.mapSet, initialState, classRecord]

end Flareone.DI

namespace Flareone.DI

theorem singleton_cache_hit (fuel cid : Nat) (tok : String) (st : ContainerState)
    (rec : ProviderRecord) (i : Nat) (hrec : getRecord st tok = some rec)
    (hscope : rec.scope = Scope.singleton) (hres : rec.isResolved = true)
    (hinst : rec.inst = PureVal.obj i) :
    resolve (fuel + 1) cid tok false st = (Except.ok (PureVal.obj i), st) := by
  have hcont : ([] : List String).contains tok = false := rfl
  simp only [resolve, resolveInternal, hcont, Bool.false_eq_true, if_false, hrec, hscope,
    resolveSingleton, hres, hinst]
  simp

theorem request_cache_hit (fuel cid : Nat) (tok : String) (st : ContainerState)
    (v : PureVal) (rec : ProviderRecord)
    (hrec : getRecord st tok = some rec) (hscope : rec.scope = Scope.request)
    (hsc : getScoped st cid tok = some v) :
    resolve (fuel + 1) cid tok false st = (Except.ok v, st) := by
  have hcont : ([] : List String).contains tok = false := rfl
  simp only [resolve, resolveInternal, hcont, Bool.false_eq_true, if_false, hrec, hscope,
    resolveRequestScoped, hsc]

theorem transient_class_step (fuel cid : Nat) (tok : String) (st : ContainerState)
    (rec : ProviderRecord)
    (hrec : getRecord st tok = some rec) (hscope : rec.scope = Scope.transient)
    (hfac : rec.factory = FactorySpec.classFactory []) :
    resolve (fuel + 1) cid tok false st =
      (Except.ok (PureVal.obj st.nextId),
        { st with calls := st.calls ++ [tok], nextId := st.nextId + 1 }) := by
  have hcont : ([] : List String).contains tok = false := rfl
  simp only [resolve, resolveInternal, hcont, Bool.false_eq_true, if_false, hrec, hscope,
    resolveTransient, hfac, runFactory, instantiateClass, resolveDeps, applyProduce]
  simp

theorem request_class_step (fuel cid : Nat) (tok : String) (st : ContainerState)
    (rec : ProviderRecord)
    (hrec : getRecord st tok = some rec) (hscope : rec.scope = Scope.request)
    (hfac : rec.factory = FactorySpec.classFactory [])
    (hsc : getScoped st cid tok = none) :
    resolve (fuel + 1) cid tok false st =
      (Except.ok (PureVal.obj st.nextId),
        setScoped { st with calls := st.calls ++ [tok], nextId := st.nextId + 1 }
          cid tok (PureVal.obj st.nextId)) := by
  have hcont : ([] : List String).contains tok = false := rfl
  simp only [resolve, resolveInternal, hcont, Bool.false_eq_true, if_false, hrec, hscope,
    resolveRequestScoped, hsc, hfac, runFactory, instantiateClass, resolveDeps, applyProduce]
  simp

end Flareone.DI

namespace Flareone.DI

/-- C4: provider scope semantics. General conjuncts: a singleton whose
record is resolved to a non-`undefined` instance is served from the record
cache with no state change (no factory run); a request-scoped token cached
in this container's scoped map is served from it unchanged; a transient
class provider runs its factory on every resolution and allots a fresh
instance identifier; a request-scoped class provider on a cache miss
allots a fresh instance and caches it under this container's identifier
only. Concrete conjuncts: a singleton class provider resolved twice
returns the identical instance with one factory call; a transient class
provider resolved twice returns two distinct instances with two factory
calls; a request-scoped class provider resolved twice in container 1
returns the identical instance, while sibling container 2 gets a distinct
instance. -/
theorem scope_caching :
    (∀ (fuel cid : Nat) (tok : String) (st : ContainerState) (rec : ProviderRecord) (i : Nat),
      getRecord st tok = some rec → rec.scope = Scope.singleton →
      rec.isResolved = true → rec.inst = PureVal.obj i →
      resolve (fuel + 1) cid tok false st = (Except.ok (PureVal.obj i), st)) ∧
    (∀ (fuel cid : Nat) (tok : String) (st : ContainerState) (v : PureVal)
        (rec : ProviderRecord),
      getRecord st tok = some rec → rec.scope = Scope.request →
      getScoped st cid tok = some v →
      resolve (fuel + 1) cid tok false st = (Except.ok v, st)) ∧
    (∀ (fuel cid : Nat) (tok : String) (st : ContainerState) (rec : ProviderRecord),
      getRecord st tok = some rec → rec.scope = Scope.transient →
      rec.factory = FactorySpec.classFactory [] →
      resolve (fuel + 1) cid tok false st =
        (Except.ok (PureVal.obj st.nextId),
          { st with calls := st.calls ++ [tok], nextId := st.nextId + 1 })) ∧
    (∀ (fuel cid : Nat) (tok : String) (st : ContainerState) (rec : ProviderRecord),
      getRecord st tok = some rec → rec.scope = Scope.request →
      rec.factory = FactorySpec.classFactory [] → getScoped st cid tok = none →
      resolve (fuel + 1) cid tok false st =
        (Except.ok (PureVal.obj st.nextId),
          setScoped { st with calls := st.calls ++ [tok], nextId := st.nextId + 1 }
            cid tok (PureVal.obj st.nextId))) ∧
    ((resolve 10 0 "S" false (initialState [("S", classRecord Scope.singleton [])])).1 =
      Except.ok (PureVal.obj 0) ∧
     (resolve 10 0 "S" false
        (resolve 10 0 "S" false (initialState [("S", classRecord Scope.singleton [])])).2).1 =
      Except.ok (PureVal.obj 0) ∧
     ((resolve 10 0 "S" false
        (resolve 10 0 "S" false (initialState [("S", classRecord Scope.singleton [])])).2).2).calls
      = ["S"]) ∧
    ((resolve 10 0 "X" false (initialState [("X", classRecord Scope.transient [])])).1 =
      Except.ok (PureVal.obj 0) ∧
     (resolve 10 0 "X" false
        (resolve 10 0 "X" false (initialState [("X", classRecord Scope.transient [])])).2).1 =
      Except.ok (PureVal.obj 1) ∧
     ((resolve 10 0 "X" false
        (resolve 10 0 "X" false (initialState [("X", classRecord Scope.transient [])])).2).2).calls
      = ["X", "X"]) ∧
    ((resolve 10 1 "R" false (initialState [("R", classRecord Scope.request [])])).1 =
      Except.ok (PureVal.obj 0) ∧
     (resolve 10 1 "R" false
        (resolve 10 1 "R" false (initialState [("R", classRecord Scope.request [])])).2).1 =
      Except.ok (PureVal.obj 0) ∧
     (resolve 10 2 "R" false
        (resolve 10 1 "R" false (initialState [("R", classRecord Scope.request [])])).2).1 =
      Except.ok (PureVal.obj 1)) := by
  refine ⟨fun fuel cid tok st rec i h1 h2 h3 h4 =>
      singleton_cache_hit fuel cid tok st rec i h1 h2 h3 h4,
    fun fuel cid tok st v rec h1 h2 h3 =>
      request_cache_hit fuel cid tok st v rec h1 h2 h3,
    fun fuel cid tok st rec h1 h2 h3 =>
      transient_class_step fuel cid tok st rec h1 h2 h3,
    fun fuel cid tok st rec h1 h2 h3 h4 =>
      request_class_step fuel cid tok st rec h1 h2 h3 h4,
    ⟨?_, ?_, ?_⟩, ⟨?_, ?_, ?_⟩, ⟨?_, ?_, ?_⟩⟩ <;>
    simp [resolve, resolveInternal, resolveSingleton, resolveRequestScoped, resolveTransient,
      runFactory, instantiateClass, resolveDeps, resolveInjected, resolveSyncInside,
      getRecord, setRecordInst, getScoped, setScoped, applyProduce,
      Flareone.mapGet, Flareone.mapSet, initialState, classRecord]

end Flareone.DI
